import Mathlib

/-!
# Verification of the booking/scheduling engine

Shallow embedding of the booking and scheduling engine of the Barber
repository, translated from:

* `src/services/booking.js` — statuses, `intervalsOverlap`, `buildSlotsForDay`,
  `createBookingService` (`isSlotFree`, `bookAppointment`, the post-commit
  race reconciliation);
* the Google-Sheets data layer (`src/services/googleSheets.js` and its evolved
  variant in the repository) — `getDaySchedule` with its day cache,
  `getAppointmentsByDate`, `getAllActiveAppointments`,
  `updateAppointmentStatus`, `upsertClient`;
* the auto-completion cron sweep in `src/services/admin.js`.

Conventions of the embedding:

* Wall-clock instants are natural numbers.  A calendar date is a day index
  `d : Nat` and a time-of-day is minutes `t < 1440`; the instant
  `dayjs.tz(dateT time)` is represented by `absMin d t = d * 1440 + t`
  (order- and arithmetic-preserving for the comparisons the code performs
  on `valueOf()` values).
* `createdAtUtc` ISO-8601 strings compare lexicographically exactly as the
  instants they denote, and row ids compare via `localeCompare`; both are
  represented by naturals with `<` as the comparison.
* Row status cells are the literal strings of the source
  (`"активна"`, `"отменена"`, `"исполнено"`, `"заблокировано"`),
  compared by equality exactly as the source compares them with `===`.
* Sheet reads/writes are explicit state passing over lists of rows;
  `try/catch` wrappers around reads are elided (the success path is modelled).
-/

namespace Barber

/-! ## Statuses (booking.js `STATUSES`) -/

def STATUS_ACTIVE : String := "активна"
def STATUS_CANCELLED : String := "отменена"
def STATUS_COMPLETED : String := "исполнено"
def STATUS_BLOCKED : String := "заблокировано"

/-- Absolute instant (in minutes) of time-of-day `t` on day `d`:
the embedding of `dayjs.tz(dateTtime).valueOf()`. -/
def absMin (d t : Nat) : Nat := d * 1440 + t

/-- booking.js `intervalsOverlap`: half-open interval overlap test. -/
def intervalsOverlap (aStart aEnd bStart bEnd : Nat) : Bool :=
  decide (aStart < bEnd) && decide (bStart < aEnd)

/-! ## Rows of the two sheets, as parsed by the data layer -/

/-- A row of the blocked-time sheet (`Schedule`), as parsed by `getDaySchedule`. -/
structure ScheduleRow where
  date : Nat
  timeStart : Nat
  timeEnd : Nat
  status : String
  deriving DecidableEq, Repr

/-- A row of the appointments sheet, as parsed by the data layer.
`id` and `createdAtUtc` are the order-preserving numeric representations of
the source's id and ISO-timestamp strings; `telegramId`/`chatId`/`phone` are
`none` when the cell is empty/absent (falsy in the source). -/
structure AppointmentRow where
  id : Nat
  createdAtUtc : Nat
  date : Nat
  timeStart : Nat
  timeEnd : Nat
  status : String
  telegramId : Option Nat
  chatId : Option Nat
  phone : Option Nat
  cancelCode : Nat
  completedAtUtc : Option Nat
  cancelledAtUtc : Option Nat
  deriving DecidableEq, Repr

/-- A service (services.json record): only the fields the engine reads. -/
structure Service where
  key : String
  name : String
  durationMin : Nat
  deriving DecidableEq, Repr

/-- Work hours for a date (`getWorkHoursForDate` result).  The source accepts
either whole-hour fields `startHour`/`endHour` or minute-precision
`start`/`end` strings (here `startMin`/`endMin`, since `end` is reserved);
lunch bounds are optional. -/
structure Workday where
  startHour : Option Nat := none
  endHour : Option Nat := none
  startMin : Option Nat := none
  endMin : Option Nat := none
  lunchStart : Option Nat := none
  lunchEnd : Option Nat := none
  deriving DecidableEq, Repr

/-- A generated slot: `timeStr` is the `HH:mm` label, `start`/`stop` the
instants (source fields `start`/`end`). -/
structure Slot where
  timeStr : String
  start : Nat
  stop : Nat
  deriving DecidableEq, Repr

/-- Two-digit zero padding, as in `String(x).padStart(2, "0")`. -/
def pad2 (n : Nat) : String :=
  if n < 10 then "0" ++ toString n else toString n

/-- `format("HH:mm")` of an absolute instant. -/
def formatHHMM (t : Nat) : String :=
  pad2 (t % 1440 / 60) ++ ":" ++ pad2 (t % 60)

/-! ## The Slot Generator (booking.js `buildSlotsForDay`) -/

/-- The day's working bounds: the `startHour != null` branch takes precedence,
then the `start`/`end` minute branch; otherwise the day is closed (`none`).
(A `startHour` without an `endHour` yields an invalid upper bound in the
source and produces no slots; it is modelled as closed.) -/
def dayBounds (dateStr : Nat) (workday : Workday) : Option (Nat × Nat) :=
  match workday.startHour, workday.endHour with
  | some sh, some eh => some (absMin dateStr (sh * 60), absMin dateStr (eh * 60))
  | some _, none => none
  | _, _ =>
    match workday.startMin, workday.endMin with
    | some s, some e => some (absMin dateStr s, absMin dateStr e)
    | _, _ => none

/-- The busy intervals collected by `buildSlotsForDay`, in the source's order:
blocked schedule rows, then active appointments, then the lunch gap when both
bounds are present and well-ordered. -/
def busyIntervals (dateStr : Nat) (workday : Workday)
    (schedule : List ScheduleRow) (appointments : List AppointmentRow) :
    List (Nat × Nat) :=
  ((schedule.filter (fun row => row.status == STATUS_BLOCKED)).map
      (fun row => (absMin row.date row.timeStart, absMin row.date row.timeEnd)))
    ++ ((appointments.filter (fun row => row.status == STATUS_ACTIVE)).map
      (fun row => (absMin row.date row.timeStart, absMin row.date row.timeEnd)))
    ++ (match workday.lunchStart, workday.lunchEnd with
      | some ls, some le =>
        if ls < le then [(absMin dateStr ls, absMin dateStr le)] else []
      | _, _ => [])

/-- The candidate walk of `buildSlotsForDay`:
`while (cursor + duration <= dayEnd)` in 15-minute steps, skipping candidates
before `now` and candidates overlapping a busy interval.  `fuel` bounds the
iteration count (structural recursion standing in for the `while` loop);
`buildSlotsForDay` supplies enough fuel for the loop to run to completion. -/
def slotWalk (dayEnd serviceDuration now : Nat) (busy : List (Nat × Nat)) :
    Nat → Nat → List Slot
  | 0, _ => []
  | fuel + 1, cursor =>
    if cursor + serviceDuration ≤ dayEnd then
      if cursor < now then
        slotWalk dayEnd serviceDuration now busy fuel (cursor + 15)
      else
        if busy.any (fun interval =>
            intervalsOverlap cursor (cursor + serviceDuration) interval.1 interval.2) then
          slotWalk dayEnd serviceDuration now busy fuel (cursor + 15)
        else
          { timeStr := formatHHMM cursor, start := cursor, stop := cursor + serviceDuration }
            :: slotWalk dayEnd serviceDuration now busy fuel (cursor + 15)
    else []

/-- booking.js `buildSlotsForDay`.  `now` is the instant the source reads from
the wall clock (`dayjs().tz(timezone)`) inside the function body — it is NOT
among the source function's parameters; here it is made explicit so the
dependence on the clock can be reasoned about. -/
def buildSlotsForDay (dateStr : Nat) (service : Service)
    (workday : Option Workday) (schedule : List ScheduleRow)
    (appointments : List AppointmentRow) (now : Nat) : List Slot :=
  match workday with
  | none => []
  | some w =>
    match dayBounds dateStr w with
    | none => []
    | some (dayStart, dayEnd) =>
      slotWalk dayEnd service.durationMin now
        (busyIntervals dateStr w schedule appointments)
        (dayEnd + 1 - dayStart) dayStart

/-- `SERVICES.MEN_HAIRCUT` from the services catalogue. -/
def MEN_HAIRCUT : Service :=
  { key := "MEN_HAIRCUT", name := "Мужская стрижка", durationMin := 60 }

/-- Work hours 09:00–17:00 with no lunch, in the `start`/`end` minute form. -/
def workdayNineToFive : Workday := { startMin := some 540, endMin := some 1020 }

/-! ## Lemmas about the candidate walk -/

/-- Every slot emitted by the walk fails the overlap test against every busy
interval (it was emitted only because `busy.any ... = false`). -/
theorem slotWalk_not_busy {dayEnd dur now : Nat} {busy : List (Nat × Nat)}
    {fuel cursor : Nat} {s : Slot}
    (hs : s ∈ slotWalk dayEnd dur now busy fuel cursor) :
    ∀ i ∈ busy, intervalsOverlap s.start s.stop i.1 i.2 = false := by
  induction fuel generalizing cursor with
  | zero => simp [slotWalk] at hs
  | succ fuel ih =>
    rw [slotWalk] at hs
    split at hs
    · split at hs
      · exact ih hs
      · split at hs
        · exact ih hs
        · rcases List.mem_cons.mp hs with h | h
          · subst h
            intro i hi
            rename_i hany
            have hfalse : (busy.any fun interval =>
                intervalsOverlap cursor (cursor + dur) interval.1 interval.2) = false := by
              simpa using hany
            simpa using List.any_eq_false.mp hfalse i hi
          · exact ih h
    · simp at hs

/-- The clock only filters: the walk at clock reading `now` is the walk at
clock reading `0` with the slots starting before `now` removed. -/
theorem slotWalk_filter_now (dayEnd dur now : Nat) (busy : List (Nat × Nat))
    (fuel cursor : Nat) :
    slotWalk dayEnd dur now busy fuel cursor
      = (slotWalk dayEnd dur 0 busy fuel cursor).filter
          (fun s => !(decide (s.start < now))) := by
  induction fuel generalizing cursor with
  | zero => simp [slotWalk]
  | succ fuel ih =>
    rw [slotWalk, slotWalk]
    by_cases hend : cursor + dur ≤ dayEnd
    · rw [if_pos hend, if_pos hend, if_neg (show ¬cursor < 0 by omega)]
      by_cases hbusy : (busy.any fun interval =>
          intervalsOverlap cursor (cursor + dur) interval.1 interval.2) = true
      · by_cases hnow : cursor < now
        · rw [if_pos hnow, if_pos hbusy]
          exact ih (cursor + 15)
        · rw [if_neg hnow, if_pos hbusy, if_pos hbusy]
          exact ih (cursor + 15)
      · by_cases hnow : cursor < now
        · rw [if_pos hnow, if_neg hbusy, List.filter_cons,
            if_neg (show ¬((fun s : Slot => !(decide (s.start < now)))
              { timeStr := formatHHMM cursor, start := cursor, stop := cursor + dur } = true)
                by simp [hnow])]
          exact ih (cursor + 15)
        · rw [if_neg hnow, if_neg hbusy, if_neg hbusy, List.filter_cons,
            if_pos (show ((fun s : Slot => !(decide (s.start < now)))
              { timeStr := formatHHMM cursor, start := cursor, stop := cursor + dur } = true)
                by simp [hnow])]
          rw [ih (cursor + 15)]
    · rw [if_neg hend, if_neg hend]
      simp

/-- A blocked schedule row's interval is collected into the busy list. -/
theorem blocked_mem_busyIntervals {dateStr : Nat} {w : Workday}
    {schedule : List ScheduleRow} {appointments : List AppointmentRow}
    {row : ScheduleRow} (hrow : row ∈ schedule) (hst : row.status = STATUS_BLOCKED) :
    (absMin row.date row.timeStart, absMin row.date row.timeEnd)
      ∈ busyIntervals dateStr w schedule appointments := by
  unfold busyIntervals
  refine List.mem_append.mpr (Or.inl (List.mem_append.mpr (Or.inl ?_)))
  exact List.mem_map.mpr ⟨row, List.mem_filter.mpr ⟨hrow, by simp [hst]⟩, rfl⟩

/-- An active appointment's interval is collected into the busy list. -/
theorem active_mem_busyIntervals {dateStr : Nat} {w : Workday}
    {schedule : List ScheduleRow} {appointments : List AppointmentRow}
    {row : AppointmentRow} (hrow : row ∈ appointments) (hst : row.status = STATUS_ACTIVE) :
    (absMin row.date row.timeStart, absMin row.date row.timeEnd)
      ∈ busyIntervals dateStr w schedule appointments := by
  unfold busyIntervals
  refine List.mem_append.mpr (Or.inl (List.mem_append.mpr (Or.inr ?_)))
  exact List.mem_map.mpr ⟨row, List.mem_filter.mpr ⟨hrow, by simp [hst]⟩, rfl⟩

/-- A well-ordered lunch gap is collected into the busy list. -/
theorem lunch_mem_busyIntervals {dateStr : Nat} {w : Workday}
    {schedule : List ScheduleRow} {appointments : List AppointmentRow}
    {ls le : Nat} (hls : w.lunchStart = some ls) (hle : w.lunchEnd = some le)
    (hord : ls < le) :
    (absMin dateStr ls, absMin dateStr le)
      ∈ busyIntervals dateStr w schedule appointments := by
  unfold busyIntervals
  refine List.mem_append.mpr (Or.inr ?_)
  rw [hls, hle]
  simp [hord]

/-- Every slot produced by `buildSlotsForDay` avoids every busy interval. -/
theorem buildSlotsForDay_not_busy {dateStr : Nat} {service : Service}
    {w : Workday} {schedule : List ScheduleRow} {appointments : List AppointmentRow}
    {now : Nat} {s : Slot}
    (hs : s ∈ buildSlotsForDay dateStr service (some w) schedule appointments now) :
    ∀ i ∈ busyIntervals dateStr w schedule appointments,
      intervalsOverlap s.start s.stop i.1 i.2 = false := by
  simp only [buildSlotsForDay] at hs
  cases hdb : dayBounds dateStr w with
  | none => rw [hdb] at hs; simp at hs
  | some b =>
    obtain ⟨dayStart, dayEnd⟩ := b
    rw [hdb] at hs
    exact slotWalk_not_busy hs

/-- C3: no slot in the Slot Generator's output has a `[start, start+duration)`
interval overlapping any blocked interval, any Active appointment's interval,
or the lunch gap when both lunch bounds are present and well-ordered. -/
theorem slot_generator_exclusion
    (dateStr : Nat) (service : Service) (w : Workday)
    (schedule : List ScheduleRow) (appointments : List AppointmentRow)
    (now : Nat) (s : Slot)
    (hs : s ∈ buildSlotsForDay dateStr service (some w) schedule appointments now) :
    (∀ row ∈ schedule, row.status = STATUS_BLOCKED →
        intervalsOverlap s.start s.stop
          (absMin row.date row.timeStart) (absMin row.date row.timeEnd) = false)
    ∧ (∀ row ∈ appointments, row.status = STATUS_ACTIVE →
        intervalsOverlap s.start s.stop
          (absMin row.date row.timeStart) (absMin row.date row.timeEnd) = false)
    ∧ (∀ ls le, w.lunchStart = some ls → w.lunchEnd = some le → ls < le →
        intervalsOverlap s.start s.stop
          (absMin dateStr ls) (absMin dateStr le) = false) := by
  have H := buildSlotsForDay_not_busy hs
  refine ⟨fun row hrow hst => ?_, fun row hrow hst => ?_, fun ls le hls hle hord => ?_⟩
  · exact H _ (blocked_mem_busyIntervals hrow hst)
  · exact H _ (active_mem_busyIntervals hrow hst)
  · exact H _ (lunch_mem_busyIntervals hls hle hord)

/-- A concrete day for the C3 witness: lunch 14:00–15:00. -/
def witWorkday : Workday :=
  { startMin := some 540, endMin := some 1020,
    lunchStart := some 840, lunchEnd := some 900 }

/-- A blocked interval 12:00–13:00 for the C3 witness. -/
def witBlocked : ScheduleRow :=
  { date := 0, timeStart := 720, timeEnd := 780, status := STATUS_BLOCKED }

/-- An active appointment 10:00–11:00 for the C3 witness. -/
def witAppt : AppointmentRow :=
  { id := 1, createdAtUtc := 0, date := 0, timeStart := 600, timeEnd := 660,
    status := STATUS_ACTIVE, telegramId := none, chatId := none, phone := none,
    cancelCode := 0, completedAtUtc := none, cancelledAtUtc := none }

/-- The 09:00 slot of the C3 witness day. -/
def witSlot : Slot := { timeStr := "09:00", start := 540, stop := 600 }

/-- Witness for C3: a concrete day with a blocked interval `12:00–13:00`, an
active appointment `10:00–11:00` and lunch `14:00–15:00`; the generated
`09:00` slot is in the output and overlaps none of them. -/
theorem slot_generator_exclusion_witness :
    witSlot ∈ buildSlotsForDay 0 MEN_HAIRCUT (some witWorkday) [witBlocked] [witAppt] 480
    ∧ intervalsOverlap witSlot.start witSlot.stop
        (absMin witBlocked.date witBlocked.timeStart) (absMin witBlocked.date witBlocked.timeEnd) = false
    ∧ intervalsOverlap witSlot.start witSlot.stop
        (absMin witAppt.date witAppt.timeStart) (absMin witAppt.date witAppt.timeEnd) = false
    ∧ intervalsOverlap witSlot.start witSlot.stop (absMin 0 840) (absMin 0 900) = false := by
  refine ⟨by decide, ?_, ?_, ?_⟩
  · exact (slot_generator_exclusion 0 MEN_HAIRCUT witWorkday [witBlocked] [witAppt]
      480 witSlot (by decide)).1 witBlocked (by decide) (by decide)
  · exact (slot_generator_exclusion 0 MEN_HAIRCUT witWorkday [witBlocked] [witAppt]
      480 witSlot (by decide)).2.1 witAppt (by decide) (by decide)
  · exact (slot_generator_exclusion 0 MEN_HAIRCUT witWorkday [witBlocked] [witAppt]
      480 witSlot (by decide)).2.2 840 900 (by decide) (by decide) (by decide)

/-- C4: with work hours 09:00–17:00, no lunch, no committed intervals, a
60-minute service and `now = 08:00` the same day, the generator returns
exactly the slots 09:00, 09:15, ..., 16:00 in 15-minute steps, the last slot
ending exactly at 17:00. -/
theorem slots_happy_path :
    buildSlotsForDay 0 MEN_HAIRCUT (some workdayNineToFive) [] [] 480
      = (List.range 29).map (fun i =>
          { timeStr := formatHHMM (540 + 15 * i), start := 540 + 15 * i,
            stop := 600 + 15 * i })
    ∧ (buildSlotsForDay 0 MEN_HAIRCUT (some workdayNineToFive) [] [] 480).getLast?
      = some { timeStr := "16:00", start := 960, stop := 1020 } := by
  constructor
  · decide
  · decide

/-- C7 counterexample: `buildSlotsForDay` takes no `now` parameter in the
source — it reads the wall clock inside its body.  Two calls with identical
declared inputs (date, service, work hours, schedule, appointments) made at
clock readings 08:00 and 20:00 return different slot lists, so the generator
is not a pure function of its declared inputs alone. -/
theorem slots_depend_on_clock :
    buildSlotsForDay 0 MEN_HAIRCUT (some workdayNineToFive) [] [] 480
      ≠ buildSlotsForDay 0 MEN_HAIRCUT (some workdayNineToFive) [] [] 1200 := by
  decide

/-- C7 amended: the Slot Generator is deterministic in its declared inputs
together with the wall-clock instant read during the call; the clock's only
effect is to remove the slots that start before `now`, so for a fixed clock
reading the output is a pure function of the inputs. -/
theorem slots_deterministic_given_clock
    (dateStr : Nat) (service : Service) (workday : Option Workday)
    (schedule : List ScheduleRow) (appointments : List AppointmentRow) (now : Nat) :
    buildSlotsForDay dateStr service workday schedule appointments now
      = (buildSlotsForDay dateStr service workday schedule appointments 0).filter
          (fun s => !(decide (s.start < now))) := by
  cases workday with
  | none => simp [buildSlotsForDay]
  | some w =>
    simp only [buildSlotsForDay]
    cases hdb : dayBounds dateStr w with
    | none => simp
    | some b =>
      obtain ⟨dayStart, dayEnd⟩ := b
      exact slotWalk_filter_now _ _ _ _ _ _

/-! ## The day-schedule cache (`getDaySchedule`, data layer)

The remote store is the pair of raw sheets; `getDaySchedule` reads through a
per-date cache with a 30-minute TTL.  The evolved data-layer variant accepts
an options object with a `fresh` flag (default `false`) that skips the cache
read; all call sites in booking.js pass no options. -/

/-- The remote tabular store: the blocked-time sheet and the appointments
sheet, as parsed rows. -/
structure RemoteStore where
  scheduleRows : List ScheduleRow
  appointmentRows : List AppointmentRow
  deriving DecidableEq, Repr

/-- One `dayCache` entry. -/
structure CacheEntry where
  schedule : List ScheduleRow
  appointments : List AppointmentRow
  expiresAt : Nat
  deriving DecidableEq, Repr

/-- The `dayCache` map, keyed by date. -/
def DayCache : Type := Nat → Option CacheEntry

/-- The initially empty cache (`const dayCache = {}`). -/
def emptyDayCache : DayCache := fun _ => none

/-- TTL: 30 minutes in milliseconds (`now + 30 * 60 * 1000`). -/
def DAY_CACHE_TTL : Nat := 30 * 60 * 1000

/-- The entry a cache refresh stores for `dateStr`: the date's schedule rows,
and the date's appointment rows whose status is neither Cancelled nor
Completed (`row.status !== "отменена" && row.status !== "исполнено"`). -/
def refreshEntry (remote : RemoteStore) (dateStr now : Nat) : CacheEntry :=
  { schedule := remote.scheduleRows.filter (fun row => row.date == dateStr),
    appointments := remote.appointmentRows.filter (fun row =>
      row.date == dateStr
        && !(row.status == STATUS_CANCELLED)
        && !(row.status == STATUS_COMPLETED)),
    expiresAt := now + DAY_CACHE_TTL }

/-- The remote-read path of `getDaySchedule`: build the entry from the remote
store, store it under `dateStr` (replacing any previous entry wholesale) and
return its data. -/
def refreshResult (remote : RemoteStore) (cache : DayCache) (dateStr now : Nat) :
    (List ScheduleRow × List AppointmentRow) × DayCache :=
  (((refreshEntry remote dateStr now).schedule,
    (refreshEntry remote dateStr now).appointments),
    fun d => if d = dateStr then some (refreshEntry remote dateStr now) else cache d)

/-- `getDaySchedule(dateStr, {fresh})`: serve a non-expired cached entry
unless `fresh` is set; otherwise read the remote store and replace the
date's entry wholesale.  Returns the `{schedule, appointments}` pair and the
cache afterwards. -/
def getDaySchedule (remote : RemoteStore) (cache : DayCache)
    (dateStr now : Nat) (fresh : Bool) :
    (List ScheduleRow × List AppointmentRow) × DayCache :=
  if fresh then refreshResult remote cache dateStr now
  else
    match cache dateStr with
    | some cached =>
      if now < cached.expiresAt then ((cached.schedule, cached.appointments), cache)
      else refreshResult remote cache dateStr now
    | none => refreshResult remote cache dateStr now

/-- `invalidateDayCache(dateStr)`: delete the date's entry outright. -/
def invalidateDayCache (cache : DayCache) (dateStr : Nat) : DayCache :=
  fun d => if d = dateStr then none else cache d

/-- The hourly `cleanupSheetsCache` pass over `dayCache`: drop entries whose
`expiresAt` is falsy or strictly before `now`. -/
def cleanupDayCache (cache : DayCache) (now : Nat) : DayCache :=
  fun d =>
    match cache d with
    | some e => if e.expiresAt = 0 ∨ e.expiresAt < now then none else some e
    | none => none

/-- Cache states reachable from the empty cache through the data layer's
operations: `getDaySchedule` reads (which may refresh an entry), explicit
invalidation (performed by every write to a date), and the periodic cleanup. -/
inductive DayCacheReachable : DayCache → Prop
  | empty : DayCacheReachable emptyDayCache
  | read (remote : RemoteStore) (cache : DayCache) (dateStr now : Nat) (fresh : Bool) :
      DayCacheReachable cache →
      DayCacheReachable (getDaySchedule remote cache dateStr now fresh).2
  | invalidate (cache : DayCache) (dateStr : Nat) :
      DayCacheReachable cache → DayCacheReachable (invalidateDayCache cache dateStr)
  | cleanup (cache : DayCache) (now : Nat) :
      DayCacheReachable cache → DayCacheReachable (cleanupDayCache cache now)

/-- The day-schedule read performed by booking.js `isSlotFree` (the
re-validation immediately before commit): `getDaySchedule(dateStr)` with no
options, i.e. `fresh = false`. -/
def preCommitDayRead (remote : RemoteStore) (cache : DayCache)
    (dateStr now : Nat) : (List ScheduleRow × List AppointmentRow) × DayCache :=
  getDaySchedule remote cache dateStr now false

/-- Every appointment of a refreshed entry is on the refreshed date and has a
status that is neither Cancelled nor Completed. -/
theorem mem_refreshEntry {remote : RemoteStore} {dateStr now : Nat}
    {a : AppointmentRow} (ha : a ∈ (refreshEntry remote dateStr now).appointments) :
    a.date = dateStr ∧ a.status ≠ STATUS_CANCELLED ∧ a.status ≠ STATUS_COMPLETED := by
  have h := (List.mem_filter.mp ha).2
  simp only [Bool.and_eq_true, beq_iff_eq, Bool.not_eq_true',
    beq_eq_false_iff_ne] at h
  exact ⟨h.1.1, h.1.2, h.2⟩

/-- A read leaves every cache entry either unchanged or replaced (at the read
date) by the freshly refreshed entry. -/
theorem getDaySchedule_cache_cases (remote : RemoteStore) (cache : DayCache)
    (dateStr now : Nat) (fresh : Bool) (d : Nat) :
    (getDaySchedule remote cache dateStr now fresh).2 d = cache d
    ∨ ((getDaySchedule remote cache dateStr now fresh).2 d
        = some (refreshEntry remote dateStr now) ∧ d = dateStr) := by
  have hrr : ∀ d2, (refreshResult remote cache dateStr now).2 d2 = cache d2
      ∨ ((refreshResult remote cache dateStr now).2 d2
          = some (refreshEntry remote dateStr now) ∧ d2 = dateStr) := by
    intro d2
    by_cases hd : d2 = dateStr
    · right
      exact ⟨by simp [refreshResult, hd], hd⟩
    · left
      simp [refreshResult, hd]
  unfold getDaySchedule
  split
  · exact hrr d
  · split
    · split
      · left
        rfl
      · exact hrr d
    · exact hrr d

/-- The cleanup pass only deletes entries; surviving entries come from the
previous cache state. -/
theorem cleanupDayCache_some {cache : DayCache} {now d : Nat} {e : CacheEntry}
    (h : cleanupDayCache cache now d = some e) : cache d = some e := by
  unfold cleanupDayCache at h
  cases hcc : cache d with
  | some e2 =>
    rw [hcc] at h
    simp only [] at h
    by_cases hdrop : e2.expiresAt = 0 ∨ e2.expiresAt < now
    · rw [if_pos hdrop] at h
      cases h
    · rw [if_neg hdrop] at h
      exact h
  | none =>
    rw [hcc] at h
    simp only [] at h
    cases h

/-- An active appointment 10:00–11:00 on date 0, present remotely but not in
the C8 counterexample's cached entry. -/
def c8Row : AppointmentRow :=
  { id := 7, createdAtUtc := 5, date := 0, timeStart := 600, timeEnd := 660,
    status := STATUS_ACTIVE, telegramId := some 1, chatId := none, phone := none,
    cancelCode := 0, completedAtUtc := none, cancelledAtUtc := none }

/-- A remote store for the C8 counterexample: one active appointment at
10:00–11:00 on date 0. -/
def c8Remote : RemoteStore :=
  { scheduleRows := [], appointmentRows := [c8Row] }

/-- A cache for the C8 counterexample: date 0 holds a non-expired entry that
predates the appointment in `c8Remote`. -/
def c8Cache : DayCache :=
  fun d => if d = 0 then some { schedule := [], appointments := [], expiresAt := 100 } else none

/-- C8 counterexample: the pre-commit re-validation read does NOT bypass the
cache.  `isSlotFree` calls `getDaySchedule(dateStr)` without the `fresh`
flag, so with a non-expired cached entry present it is served the stale
cached data, not the remote store's current content. -/
theorem precommit_read_not_fresh :
    (preCommitDayRead c8Remote c8Cache 0 0).1 = ([], [])
    ∧ (preCommitDayRead c8Remote c8Cache 0 0).1
        ≠ ((refreshEntry c8Remote 0 0).schedule, (refreshEntry c8Remote 0 0).appointments) := by
  constructor
  · rfl
  · decide

/-- C8 amended: `getDaySchedule` (in the data-layer variant that has the
`fresh` option) bypasses the cache unconditionally when `fresh` is set, even
when a non-expired entry for the date exists — but the Booking Transactor's
pre-commit slot re-check calls `getDaySchedule` without the flag and is
served the cached entry whenever one is valid, relying on write-time cache
invalidation rather than a forced fresh read. -/
theorem fresh_flag_bypasses_cache (remote : RemoteStore) (cache : DayCache)
    (dateStr now : Nat) (e : CacheEntry)
    (hc : cache dateStr = some e) (hvalid : now < e.expiresAt) :
    (getDaySchedule remote cache dateStr now true).1
      = ((refreshEntry remote dateStr now).schedule,
         (refreshEntry remote dateStr now).appointments)
    ∧ (preCommitDayRead remote cache dateStr now).1 = (e.schedule, e.appointments) := by
  constructor
  · rfl
  · simp [preCommitDayRead, getDaySchedule, hc, hvalid]

/-- Witness for the C8 amended theorem at the concrete counterexample state. -/
theorem fresh_flag_bypasses_cache_witness :
    (getDaySchedule c8Remote c8Cache 0 0 true).1
      = ((refreshEntry c8Remote 0 0).schedule, (refreshEntry c8Remote 0 0).appointments)
    ∧ (preCommitDayRead c8Remote c8Cache 0 0).1
      = (({ schedule := [], appointments := [], expiresAt := 100 } : CacheEntry).schedule,
         ({ schedule := [], appointments := [], expiresAt := 100 } : CacheEntry).appointments) :=
  fresh_flag_bypasses_cache c8Remote c8Cache 0 0
    { schedule := [], appointments := [], expiresAt := 100 } rfl (by decide)

/-- An appointments-sheet row on date 0 whose status cell is
`"заблокировано"` — not Active, yet not filtered out by `getDaySchedule`'s
status filter. -/
def c9Row : AppointmentRow :=
  { id := 3, createdAtUtc := 1, date := 0, timeStart := 600, timeEnd := 660,
    status := STATUS_BLOCKED, telegramId := none, chatId := none, phone := none,
    cancelCode := 0, completedAtUtc := none, cancelledAtUtc := none }

/-- A remote store for the C9 counterexample, holding `c9Row`. -/
def c9Remote : RemoteStore :=
  { scheduleRows := [], appointmentRows := [c9Row] }

/-- C9 counterexample: a reachable cache state whose entry for date 0 holds
an appointment whose status is not Active.  The refresh filter keeps every
row whose status differs from Cancelled and Completed, not only Active
rows. -/
theorem dayCache_holds_non_active :
    DayCacheReachable (getDaySchedule c9Remote emptyDayCache 0 0 false).2
    ∧ ((getDaySchedule c9Remote emptyDayCache 0 0 false).2 0)
        = some (refreshEntry c9Remote 0 0)
    ∧ (refreshEntry c9Remote 0 0).appointments.length = 1
    ∧ ∀ a ∈ (refreshEntry c9Remote 0 0).appointments, a.status ≠ STATUS_ACTIVE := by
  refine ⟨DayCacheReachable.read _ _ _ _ _ DayCacheReachable.empty, rfl, rfl, ?_⟩
  decide

/-- C9 amended: every appointment held in any reachable day-cache entry is
for the entry's date and has a status that is neither Cancelled nor
Completed (which coincides with Active-only exactly when the remote store
holds no other status values). -/
theorem dayCache_status_invariant (cache : DayCache)
    (hreach : DayCacheReachable cache) (dateStr : Nat) (e : CacheEntry)
    (he : cache dateStr = some e) :
    ∀ a ∈ e.appointments,
      a.date = dateStr ∧ a.status ≠ STATUS_CANCELLED ∧ a.status ≠ STATUS_COMPLETED := by
  induction hreach generalizing dateStr e with
  | empty => simp [emptyDayCache] at he
  | read remote cache d now fresh _ ih =>
    rcases getDaySchedule_cache_cases remote cache d now fresh dateStr with
      hcase | ⟨hcase, hd⟩
    · exact ih dateStr e (hcase ▸ he)
    · rw [he] at hcase
      obtain rfl := Option.some_injective _ hcase.symm
      intro a ha
      obtain ⟨h1, h2, h3⟩ := mem_refreshEntry ha
      exact ⟨hd ▸ h1, h2, h3⟩
  | invalidate cache d _ ih =>
    unfold invalidateDayCache at he
    by_cases hd : dateStr = d
    · rw [if_pos hd] at he
      cases he
    · rw [if_neg hd] at he
      exact ih dateStr e he
  | cleanup cache now _ ih =>
    exact ih dateStr e (cleanupDayCache_some he)

/-- Witness for the C9 amended theorem: applied to the reachable cache of
the counterexample state at date 0 and its cached row. -/
theorem dayCache_status_invariant_witness :
    c9Row.date = 0 ∧ c9Row.status ≠ STATUS_CANCELLED ∧ c9Row.status ≠ STATUS_COMPLETED :=
  dayCache_status_invariant (getDaySchedule c9Remote emptyDayCache 0 0 false).2
    (DayCacheReachable.read _ _ _ _ _ DayCacheReachable.empty) 0
    (refreshEntry c9Remote 0 0) rfl c9Row (by decide)

/-! ## The appointments/clients store and its write operations

The store state is the parsed content of the three sheets the engine writes:
the blocked-time sheet, the appointments sheet and the clients sheet. -/

/-- A row of the clients sheet.  `telegramId` is `none` when the cell is
empty (falsy in the source). -/
structure ClientRow where
  telegramId : Option Nat
  firstSeenAtUtc : Nat
  username : String
  name : String
  phone : Option Nat
  lastAppointmentAtUtc : Option Nat
  totalAppointments : Nat
  deriving DecidableEq, Repr

/-- The store: the two calendar sheets plus the clients sheet. -/
structure World where
  scheduleRows : List ScheduleRow
  appointmentRows : List AppointmentRow
  clients : List ClientRow
  deriving DecidableEq, Repr

/-- Update the last row satisfying `p` (the source's `rows.forEach` keeps the
last matching index, then a single-row write updates that row); a list with
no matching row is returned unchanged (the source returns `false`). -/
def updateLastBy {α : Type} (p : α → Bool) (f : α → α) : List α → List α
  | [] => []
  | r :: rest =>
    if rest.any p then r :: updateLastBy p f rest
    else if p r then f r :: rest
    else r :: updateLastBy p f rest

/-- The fields passed to `upsertClient`; absent fields are `none`
(`undefined` in the source, falsy in the `||` merges). -/
structure ClientUpsert where
  telegramId : Option Nat := none
  username : Option String := none
  name : Option String := none
  phone : Option Nat := none
  lastAppointmentAtUtc : Option Nat := none
  deriving DecidableEq, Repr

/-- `new || old` for string cells: a present non-empty new value wins,
otherwise the old cell is kept (`x || rowValues[k] || ""`). -/
def jsOrStr (new : Option String) (old : String) : String :=
  match new with
  | some s => if s = "" then old else s
  | none => old

/-- `new || old` for optional cells. -/
def jsOrOpt (new old : Option Nat) : Option Nat :=
  match new with
  | some t => some t
  | none => old

/-- The fresh clients-sheet row appended by `upsertClient` for an unknown
Telegram id (`firstSeenUtc` read from the clock, counter 1). -/
def freshClientRow (tNow : Nat) (u : ClientUpsert) : ClientRow :=
  { telegramId := u.telegramId, firstSeenAtUtc := tNow,
    username := u.username.getD "", name := u.name.getD "",
    phone := u.phone, lastAppointmentAtUtc := u.lastAppointmentAtUtc,
    totalAppointments := 1 }

/-- The in-place merge performed by `upsertClient` on an existing row:
`||`-merge the contact fields and increment the appointment counter. -/
def mergeClientRow (u : ClientUpsert) (r : ClientRow) : ClientRow :=
  { r with
    username := jsOrStr u.username r.username,
    name := jsOrStr u.name r.name,
    phone := jsOrOpt u.phone r.phone,
    lastAppointmentAtUtc := jsOrOpt u.lastAppointmentAtUtc r.lastAppointmentAtUtc,
    totalAppointments := r.totalAppointments + 1 }

/-- `upsertClient`: find the last clients-sheet row whose Telegram id equals
the given one; update it in place (merging fields with `||` and incrementing
the appointment counter), or append a fresh row with counter 1.  `tNow` is
the clock instant used for `firstSeenAtUtc` on insert. -/
def upsertClient (tNow : Nat) (clients : List ClientRow) (u : ClientUpsert) :
    List ClientRow :=
  if clients.any (fun r => r.telegramId == u.telegramId) then
    updateLastBy (fun r => r.telegramId == u.telegramId) (mergeClientRow u) clients
  else
    clients ++ [freshClientRow tNow u]

/-- The row mutation of `updateAppointmentStatus`: set the status cell, and
stamp `cancelledAtUtc`/`completedAtUtc` when the new status is Cancelled/
Completed and the corresponding timestamp was supplied. -/
def applyStatus (status : String) (cancelledAtUtc completedAtUtc : Option Nat)
    (r : AppointmentRow) : AppointmentRow :=
  let r1 := { r with status := status }
  let r2 :=
    if status = STATUS_CANCELLED then
      match cancelledAtUtc with
      | some t => { r1 with cancelledAtUtc := some t }
      | none => r1
    else r1
  if status = STATUS_COMPLETED then
    match completedAtUtc with
    | some t => { r2 with completedAtUtc := some t }
    | none => r2
  else r2

/-- `updateAppointmentStatus(id, status, {cancelledAtUtc, completedAtUtc})`
of the evolved data-layer variant: find the row by id (the last matching
index), write the mutated row back, and — when completing with a timestamp
and the row has a Telegram id — refresh that client's
`lastAppointmentAtUtc` via `upsertClient`.  An id that matches no row
changes nothing (the source returns `false`).  `tNow` is the clock used by
the nested upsert for `firstSeenAtUtc` on insert. -/
def updateAppointmentStatus (w : World) (id : Nat) (status : String)
    (cancelledAtUtc completedAtUtc : Option Nat) (tNow : Nat) : World :=
  match (w.appointmentRows.filter (fun r => r.id == id)).getLast? with
  | none => w
  | some target =>
    { w with
      appointmentRows := updateLastBy (fun r => r.id == id)
        (applyStatus status cancelledAtUtc completedAtUtc) w.appointmentRows,
      clients :=
        if status = STATUS_COMPLETED then
          match completedAtUtc, target.telegramId with
          | some t, some tg =>
            upsertClient tNow w.clients
              { telegramId := some tg, lastAppointmentAtUtc := some t }
          | _, _ => w.clients
        else w.clients }

/-- `getAppointmentsByDate(dateStr)`: the date's rows with status Active. -/
def getAppointmentsByDate (w : World) (dateStr : Nat) : List AppointmentRow :=
  w.appointmentRows.filter (fun r => r.date == dateStr && r.status == STATUS_ACTIVE)

/-- `getAllActiveAppointments()`: every row with status Active (the source
additionally drops rows with empty id/date/timeEnd cells; those fields are
total here). -/
def getAllActiveAppointments (w : World) : List AppointmentRow :=
  w.appointmentRows.filter (fun r => r.status == STATUS_ACTIVE)

/-! ## The Booking Transactor (booking.js `createBookingService`) -/

/-- The race tie-break comparator of `bookAppointment`
(`overlapping.sort`): `createdAtUtc` ascending, id ascending on ties. -/
def raceLt (x y : AppointmentRow) : Bool :=
  if x.createdAtUtc == y.createdAtUtc then decide (x.id < y.id)
  else decide (x.createdAtUtc < y.createdAtUtc)

/-- `overlapping.sort(cmp)[0]`: the head of the ascending sort, i.e. the
first minimal element under `raceLt`. -/
def raceWinner : List AppointmentRow → Option AppointmentRow
  | [] => none
  | a :: rest => some (rest.foldl (fun w b => if raceLt b w then b else w) a)

/-- The re-read of the race reconciliation: the date's Active appointments
whose interval overlaps the just-committed `[start, stop)` interval. -/
def raceOverlapping (w : World) (dateStr start stop : Nat) : List AppointmentRow :=
  (getAppointmentsByDate w dateStr).filter (fun a =>
    intervalsOverlap start stop (absMin a.date a.timeStart) (absMin a.date a.timeEnd))

/-- The cancellation condition of the race reconciliation: more than one
Active appointment overlaps the committed interval and the deterministic
winner is not this call's appointment. -/
def raceLost (w : World) (dateStr start stop selfId : Nat) : Bool :=
  if 1 < (raceOverlapping w dateStr start stop).length then
    match raceWinner (raceOverlapping w dateStr start stop) with
    | some winner => winner.id != selfId
    | none => false
  else false

/-- The post-commit race reconciliation block of `bookAppointment`
(booking.js lines 346–379): re-read the date's Active appointments, filter
those overlapping the just-committed `[start, stop)` interval, and if more
than one overlaps and the deterministic winner is not this call's
appointment, cancel this call's appointment.  Returns the new store state
and whether `slot_taken` was reported. -/
def reconcileRace (w : World) (dateStr start stop selfId tCancel : Nat) :
    World × Bool :=
  if raceLost w dateStr start stop selfId then
    (updateAppointmentStatus w selfId STATUS_CANCELLED (some tCancel) none tCancel,
      true)
  else (w, false)

/-- The client identity fields of a booking request. -/
structure BookClient where
  telegramId : Option Nat := none
  chatId : Option Nat := none
  phone : Option Nat := none
  name : String := ""
  username : Option String := none
  deriving DecidableEq, Repr

/-- The quota filter of `bookAppointment`: an Active row matched by Telegram
id when both sides have one, else by chat id when both sides have one, else
by phone when both sides have one. -/
def ownerMatches (c : BookClient) (a : AppointmentRow) : Bool :=
  if !(a.status == STATUS_ACTIVE) then false
  else if c.telegramId.isSome && a.telegramId.isSome then c.telegramId == a.telegramId
  else if c.chatId.isSome && a.chatId.isSome then c.chatId == a.chatId
  else if c.phone.isSome && a.phone.isSome then c.phone == a.phone
  else false

/-- `ownerKey = client.telegramId || client.chatId || client.phone`. -/
def ownerKeyPresent (c : BookClient) : Bool :=
  c.telegramId.isSome || c.chatId.isSome || c.phone.isSome

/-- The day-schedule pair as the booking path reads it (a cache refresh of
the current store; staleness of the read-through cache is treated in the
`getDaySchedule` section above). -/
def remoteOf (w : World) : RemoteStore :=
  { scheduleRows := w.scheduleRows, appointmentRows := w.appointmentRows }

/-- booking.js `isSlotFree`: recompute the day's slots and test whether the
requested time label is among them. -/
def isSlotFree (w : World) (service : Service) (dateStr timeMin : Nat)
    (workHours : Option Workday) (now : Nat) : Bool :=
  match workHours with
  | none => false
  | some wd =>
    (buildSlotsForDay dateStr service (some wd)
        (refreshEntry (remoteOf w) dateStr now).schedule
        (refreshEntry (remoteOf w) dateStr now).appointments now).any
      (fun slot => slot.timeStr == formatHHMM timeMin)

/-- Values read from the environment (clock, ban status, work hours) and the
generators (`generateId`, `generateCancelCode`) during one `bookAppointment`
call, plus the rows committed by concurrent racers between this call's
append and its race re-read. -/
structure BookEnv where
  banned : Bool := false
  workHours : Option Workday := none
  now : Nat := 0
  newId : Nat := 0
  cancelCode : Nat := 0
  createdAtUtc : Nat := 0
  tCancel : Nat := 0
  interference : List AppointmentRow := []
  deriving DecidableEq, Repr

/-- A booking call's outcome: the committed appointment or a reason code. -/
inductive BookResult where
  | ok (appointment : AppointmentRow)
  | err (reason : String)
  deriving DecidableEq, Repr

/-- The appointment row `bookAppointment` writes (`timeEnd` is the end
instant formatted back to a time of day, as `end.format("HH:mm")` does). -/
def bookedRow (service : Service) (dateStr timeMin : Nat) (c : BookClient)
    (env : BookEnv) : AppointmentRow :=
  { id := env.newId, createdAtUtc := env.createdAtUtc, date := dateStr,
    timeStart := timeMin, timeEnd := (timeMin + service.durationMin) % 1440,
    status := STATUS_ACTIVE, telegramId := c.telegramId, chatId := c.chatId,
    phone := c.phone, cancelCode := env.cancelCode,
    completedAtUtc := none, cancelledAtUtc := none }

/-- The `upsertClient` payload of a successful commit. -/
def bookUpsert (c : BookClient) (env : BookEnv) : ClientUpsert :=
  { telegramId := c.telegramId, username := c.username, name := some c.name,
    phone := c.phone, lastAppointmentAtUtc := some env.createdAtUtc }

/-- booking.js `bookAppointment` (the calendar-sync and reminder-flag side
calls, which do not touch the modelled state, are elided; the `try/catch`
wrappers model their success paths).  Step order as in the source: ban
check, work hours, slot re-validation, daily quota, append + client upsert,
then post-commit race reconciliation over the store as extended by the
concurrently committed `env.interference` rows. -/
def bookAppointment (w : World) (service : Service) (dateStr timeMin : Nat)
    (c : BookClient) (env : BookEnv) : BookResult × World :=
  if env.banned then (.err "banned", w)
  else
    match env.workHours with
    | none => (.err "closed", w)
    | some _ =>
      if !(isSlotFree w service dateStr timeMin env.workHours env.now) then
        (.err "slot_taken", w)
      else
        let sameUserCount :=
          ((getAppointmentsByDate w dateStr).filter (ownerMatches c)).length
        if ownerKeyPresent c && decide (3 ≤ sameUserCount) then
          (.err "limit_exceeded", w)
        else
          let start := absMin dateStr timeMin
          let stop := start + service.durationMin
          let appointment := bookedRow service dateStr timeMin c env
          let w1 := { w with appointmentRows := w.appointmentRows ++ [appointment] }
          let w2 := { w1 with clients := upsertClient env.createdAtUtc w1.clients (bookUpsert c env) }
          let w3 := { w2 with appointmentRows := w2.appointmentRows ++ env.interference }
          let res := reconcileRace w3 dateStr start stop env.newId env.tCancel
          if res.2 then (.err "slot_taken", res.1) else (.ok appointment, res.1)

/-! ## The auto-completion sweep (admin.js, every 30 minutes) -/

/-- One iteration of the sweep's loop: if the appointment's end instant has
passed (`isBefore || isSame`, i.e. `≤ now`), complete it with the sweep's
completion timestamp. -/
def autoCompleteStep (now tUtc : Nat) (w : World) (app : AppointmentRow) : World :=
  if absMin app.date app.timeEnd ≤ now then
    updateAppointmentStatus w app.id STATUS_COMPLETED none (some tUtc) tUtc
  else w

/-- The auto-completion sweep: walk all Active appointments (read once, up
front) and complete each whose end time has passed.  `now` is the sweep's
salon-local clock reading, `tUtc` the completion timestamp it stamps. -/
def autoCompleteSweep (now tUtc : Nat) (w : World) : World :=
  (getAllActiveAppointments w).foldl (autoCompleteStep now tUtc) w

/-! ## C2 — the daily quota -/

/-- A quota match can only fire when the requesting client carries at least
one of the three identity fields. -/
theorem ownerMatches_key {c : BookClient} {a : AppointmentRow}
    (h : ownerMatches c a = true) : ownerKeyPresent c = true := by
  cases hc1 : c.telegramId <;> cases hc2 : c.chatId <;> cases hc3 : c.phone <;>
    simp_all [ownerMatches, ownerKeyPresent]

/-- C2 amended: a booking request that passes the ban, work-hours and
slot-free checks and whose owner already has 3 or more matching Active
appointments on the requested date is rejected with `limit_exceeded`, and
the store is left unchanged. -/
theorem quota_enforced (w : World) (service : Service) (dateStr timeMin : Nat)
    (c : BookClient) (env : BookEnv)
    (hban : env.banned = false)
    (hfree : isSlotFree w service dateStr timeMin env.workHours env.now = true)
    (hcount : 3 ≤ ((getAppointmentsByDate w dateStr).filter (ownerMatches c)).length) :
    bookAppointment w service dateStr timeMin c env = (.err "limit_exceeded", w) := by
  obtain ⟨wd, hwd⟩ : ∃ wd, env.workHours = some wd := by
    cases hw : env.workHours with
    | none => rw [hw] at hfree; simp [isSlotFree] at hfree
    | some wd => exact ⟨wd, rfl⟩
  have hkey : ownerKeyPresent c = true := by
    have hpos : 0 < ((getAppointmentsByDate w dateStr).filter (ownerMatches c)).length := by
      omega
    obtain ⟨a, ha⟩ := List.exists_mem_of_ne_nil _ (List.length_pos.mp hpos)
    exact ownerMatches_key (List.mem_filter.mp ha).2
  rw [hwd] at hfree
  unfold bookAppointment
  rw [hban, hwd]
  simp only [Bool.false_eq_true, if_false]
  rw [hfree]
  simp only [Bool.not_true, Bool.false_eq_true, if_false]
  rw [hkey]
  simp [hcount]

/-- The C2 scenario client: Telegram id 1. -/
def quotaClient : BookClient := { telegramId := some 1, name := "A" }

/-- Shorthand for an Active appointment row of the quota scenarios. -/
def mkActiveAppt (id created date tStart tEnd : Nat) (tg : Option Nat) :
    AppointmentRow :=
  { id := id, createdAtUtc := created, date := date, timeStart := tStart,
    timeEnd := tEnd, status := STATUS_ACTIVE, telegramId := tg, chatId := none,
    phone := none, cancelCode := 0, completedAtUtc := none, cancelledAtUtc := none }

/-- A store in which client 1 already has exactly 3 Active appointments on
date 0 (09:00–10:00, 10:00–11:00, 11:00–12:00). -/
def quotaWorld : World :=
  { scheduleRows := [],
    appointmentRows := [mkActiveAppt 1 1 0 540 600 (some 1),
      mkActiveAppt 2 2 0 600 660 (some 1), mkActiveAppt 3 3 0 660 720 (some 1)],
    clients := [] }

/-- The booking environment of the C2 counterexample: not banned, but no
work hours exist for the date (closed day). -/
def quotaEnvClosed : BookEnv := { banned := false, workHours := none }

/-- C2 counterexample: an owner with 3 Active appointments on the requested
date is NOT always rejected with `limit_exceeded` — on a day with no work
hours the call returns `closed` before the quota check is reached. -/
theorem quota_not_limit_on_closed_day :
    3 ≤ ((getAppointmentsByDate quotaWorld 0).filter (ownerMatches quotaClient)).length
    ∧ bookAppointment quotaWorld MEN_HAIRCUT 0 780 quotaClient quotaEnvClosed
        = (.err "closed", quotaWorld) := by
  constructor
  · decide
  · rfl

/-- The booking environment of the C2 witness: open day 09:00–17:00, clock
at 08:00. -/
def quotaEnvOpen : BookEnv :=
  { banned := false, workHours := some workdayNineToFive, now := 480,
    newId := 4, cancelCode := 0, createdAtUtc := 4, tCancel := 5, interference := [] }

/-- Witness for C2: client 1's 4th booking attempt on date 0 (13:00, a slot
that is still free) is rejected with `limit_exceeded` and writes nothing. -/
theorem quota_enforced_witness :
    bookAppointment quotaWorld MEN_HAIRCUT 0 780 quotaClient quotaEnvOpen
      = (.err "limit_exceeded", quotaWorld) :=
  quota_enforced quotaWorld MEN_HAIRCUT 0 780 quotaClient quotaEnvOpen
    (by decide) (by decide) (by decide)

/-! ## C10 — a lost race does not roll back earlier side effects -/

/-- `updateLastBy` on a list whose only match is `a` rewrites exactly that
occurrence. -/
theorem updateLastBy_sandwich {α : Type} (p : α → Bool) (f : α → α)
    (l1 l2 : List α) (a : α) (hpa : p a = true)
    (h1 : ∀ x ∈ l1, p x = false) (h2 : ∀ x ∈ l2, p x = false) :
    updateLastBy p f (l1 ++ a :: l2) = l1 ++ f a :: l2 := by
  induction l1 with
  | nil =>
    simp only [List.nil_append, updateLastBy]
    rw [if_neg (by simp [List.any_eq_true]; intro x hx; simp [h2 x hx]), if_pos hpa]
  | cons x rest ih =>
    simp only [List.cons_append, updateLastBy]
    rw [if_pos (by simp [List.any_eq_true]; exact Or.inr (Or.inl hpa))]
    exact congrArg _ (ih fun y hy => h1 y (List.mem_cons_of_mem x hy))

/-- Filtering a list whose only match is `a` yields `[a]`. -/
theorem filter_sandwich {α : Type} (p : α → Bool) (l1 l2 : List α) (a : α)
    (hpa : p a = true)
    (h1 : ∀ x ∈ l1, p x = false) (h2 : ∀ x ∈ l2, p x = false) :
    (l1 ++ a :: l2).filter p = [a] := by
  rw [List.filter_append, List.filter_cons, if_pos hpa,
    List.filter_eq_nil_iff.mpr (by intro x hx; simp [h1 x hx]),
    List.filter_eq_nil_iff.mpr (by intro x hx; simp [h2 x hx])]
  rfl

/-- `applyStatus` for a cancellation just sets the status and the
cancellation stamp. -/
theorem applyStatus_cancelled (t : Nat) (r : AppointmentRow) :
    applyStatus STATUS_CANCELLED (some t) none r
      = { r with status := STATUS_CANCELLED, cancelledAtUtc := some t } := rfl

/-- If the reconciliation reported `slot_taken`, its resulting state is the
store with this call's appointment cancelled. -/
theorem reconcileRace_true {w : World} {dateStr start stop selfId tCancel : Nat}
    (h : (reconcileRace w dateStr start stop selfId tCancel).2 = true) :
    (reconcileRace w dateStr start stop selfId tCancel).1
      = updateAppointmentStatus w selfId STATUS_CANCELLED (some tCancel) none tCancel := by
  unfold reconcileRace at h ⊢
  by_cases hb : raceLost w dateStr start stop selfId = true
  · rw [if_pos hb]
  · rw [if_neg hb] at h
    cases h

/-- Cancelling the only row carrying `id` rewrites exactly that row and
leaves the clients sheet alone. -/
theorem updateAppointmentStatus_cancel_sandwich
    (sr : List ScheduleRow) (cl : List ClientRow) (l1 l2 : List AppointmentRow)
    (a : AppointmentRow) (id t tNow : Nat)
    (hpa : a.id = id) (h1 : ∀ x ∈ l1, x.id ≠ id) (h2 : ∀ x ∈ l2, x.id ≠ id) :
    updateAppointmentStatus ⟨sr, l1 ++ [a] ++ l2, cl⟩ id STATUS_CANCELLED (some t) none tNow
      = ⟨sr, l1 ++ [{ a with status := STATUS_CANCELLED, cancelledAtUtc := some t }] ++ l2, cl⟩ := by
  have hL : l1 ++ [a] ++ l2 = l1 ++ a :: l2 := by simp
  have hR : l1 ++ [{ a with status := STATUS_CANCELLED, cancelledAtUtc := some t }] ++ l2
      = l1 ++ { a with status := STATUS_CANCELLED, cancelledAtUtc := some t } :: l2 := by simp
  rw [hL, hR]
  have hfa : (fun r : AppointmentRow => r.id == id) a = true := by simp [hpa]
  have hf1 : ∀ x ∈ l1, (fun r : AppointmentRow => r.id == id) x = false := by
    intro x hx
    simp [h1 x hx]
  have hf2 : ∀ x ∈ l2, (fun r : AppointmentRow => r.id == id) x = false := by
    intro x hx
    simp [h2 x hx]
  unfold updateAppointmentStatus
  rw [show (⟨sr, l1 ++ a :: l2, cl⟩ : World).appointmentRows = l1 ++ a :: l2 from rfl,
    filter_sandwich (fun r : AppointmentRow => r.id == id) l1 l2 a hfa hf1 hf2,
    List.getLast?_singleton]
  simp only []
  rw [updateLastBy_sandwich (fun r : AppointmentRow => r.id == id)
      (applyStatus STATUS_CANCELLED (some t) none) l1 l2 a hfa hf1 hf2,
    applyStatus_cancelled,
    if_neg (by decide : ¬(STATUS_CANCELLED = STATUS_COMPLETED))]

/-- C10: when `bookAppointment` loses the post-commit race reconciliation and
returns `slot_taken`, the earlier side effects stay applied: the client
upsert remains in the clients sheet, and the losing appointment row remains
in the store with status Cancelled (it is not deleted). -/
theorem race_loss_preserves_side_effects
    (w : World) (service : Service) (dateStr timeMin : Nat) (c : BookClient)
    (env : BookEnv)
    (wd : Workday)
    (hban : env.banned = false)
    (hwd : env.workHours = some wd)
    (hfree : isSlotFree w service dateStr timeMin env.workHours env.now = true)
    (hq : (ownerKeyPresent c && decide (3 ≤
      ((getAppointmentsByDate w dateStr).filter (ownerMatches c)).length)) = false)
    (hres : (bookAppointment w service dateStr timeMin c env).1 = .err "slot_taken")
    (hid1 : ∀ r ∈ w.appointmentRows, r.id ≠ env.newId)
    (hid2 : ∀ r ∈ env.interference, r.id ≠ env.newId) :
    (bookAppointment w service dateStr timeMin c env).2
      = { scheduleRows := w.scheduleRows,
          appointmentRows := w.appointmentRows
            ++ [{ bookedRow service dateStr timeMin c env with
                  status := STATUS_CANCELLED, cancelledAtUtc := some env.tCancel }]
            ++ env.interference,
          clients := upsertClient env.createdAtUtc w.clients (bookUpsert c env) } := by
  rw [hwd] at hfree
  unfold bookAppointment at hres ⊢
  rw [hban, hwd] at hres ⊢
  simp only [Bool.false_eq_true, if_false] at hres ⊢
  rw [hfree] at hres ⊢
  simp only [Bool.not_true, Bool.false_eq_true, if_false] at hres ⊢
  rw [hq] at hres ⊢
  simp only [Bool.false_eq_true, if_false] at hres ⊢
  by_cases hrl : (reconcileRace
      { scheduleRows := w.scheduleRows,
        appointmentRows := w.appointmentRows
          ++ [bookedRow service dateStr timeMin c env] ++ env.interference,
        clients := upsertClient env.createdAtUtc w.clients (bookUpsert c env) }
      dateStr (absMin dateStr timeMin) (absMin dateStr timeMin + service.durationMin)
      env.newId env.tCancel).2 = true
  · rw [if_pos hrl]
    simp only []
    rw [reconcileRace_true hrl]
    exact updateAppointmentStatus_cancel_sandwich w.scheduleRows
      (upsertClient env.createdAtUtc w.clients (bookUpsert c env))
      w.appointmentRows env.interference (bookedRow service dateStr timeMin c env)
      env.newId env.tCancel env.tCancel rfl hid1 hid2
  · rw [if_neg hrl] at hres
    simp at hres

/-- The empty store. -/
def emptyWorld : World := { scheduleRows := [], appointmentRows := [], clients := [] }

/-- The concurrently committed appointment of the C10 witness: same slot
13:00–14:00 on date 0, earlier `createdAtUtc`. -/
def c10Interference : AppointmentRow := mkActiveAppt 9 40 0 780 840 (some 2)

/-- The C10 witness client. -/
def c10Client : BookClient := { telegramId := some 5, name := "B" }

/-- The C10 witness environment: open day, a rival appointment with an
earlier creation instant lands between the append and the race re-read. -/
def c10Env : BookEnv :=
  { banned := false, workHours := some workdayNineToFive, now := 480, newId := 10,
    cancelCode := 3, createdAtUtc := 50, tCancel := 60,
    interference := [c10Interference] }

/-- Witness for C10: booking 13:00 into an empty store while a rival commit
(earlier `createdAtUtc`) lands concurrently; the call loses the race, and
the final store keeps the upserted client and this call's row with status
Cancelled. -/
theorem race_loss_preserves_side_effects_witness :
    (bookAppointment emptyWorld MEN_HAIRCUT 0 780 c10Client c10Env).2
      = { scheduleRows := emptyWorld.scheduleRows,
          appointmentRows := emptyWorld.appointmentRows
            ++ [{ bookedRow MEN_HAIRCUT 0 780 c10Client c10Env with
                  status := STATUS_CANCELLED, cancelledAtUtc := some c10Env.tCancel }]
            ++ c10Env.interference,
          clients := upsertClient c10Env.createdAtUtc emptyWorld.clients
            (bookUpsert c10Client c10Env) } :=
  race_loss_preserves_side_effects emptyWorld MEN_HAIRCUT 0 780 c10Client c10Env
    workdayNineToFive rfl rfl (by decide) (by decide) (by decide)
    (by decide) (by decide)

/-! ## C5 / C6 — the auto-completion sweep -/

/-- The clients-sheet row a lookup by Telegram id resolves to: the last
matching row (the `forEach` lookups keep the last matching index). -/
def lastClient (clients : List ClientRow) (tg : Nat) : Option ClientRow :=
  (clients.filter (fun r => r.telegramId == some tg)).getLast?

/-- The row mutation of a completion: status Completed plus the stamp. -/
def completeRow (t : Nat) (r : AppointmentRow) : AppointmentRow :=
  { r with status := STATUS_COMPLETED, completedAtUtc := some t }

/-- `applyStatus` for a completion just sets the status and the stamp. -/
theorem applyStatus_completed (t : Nat) (r : AppointmentRow) :
    applyStatus STATUS_COMPLETED none (some t) r = completeRow t r := rfl

/-- An element of a list with pairwise-distinct keys splits the list into a
prefix and suffix free of its key. -/
theorem nodup_mem_sandwich {α β : Type} (key : α → β) {l : List α} {a : α}
    (hnd : (l.map key).Nodup) (ha : a ∈ l) :
    ∃ l1 l2, l = l1 ++ a :: l2 ∧ (∀ x ∈ l1, key x ≠ key a)
      ∧ (∀ x ∈ l2, key x ≠ key a) := by
  obtain ⟨l1, l2, rfl⟩ := List.append_of_mem ha
  have hinj := List.inj_on_of_nodup_map hnd
  have hndl : (l1 ++ a :: l2).Nodup := hnd.of_map
  have hdis := List.disjoint_of_nodup_append hndl
  have hnd2 : (a :: l2).Nodup := (hndl.sublist (List.sublist_append_right l1 _))
  refine ⟨l1, l2, rfl, ?_, ?_⟩
  · intro x hx heq
    have hxa : x = a :=
      hinj (List.mem_append.mpr (Or.inl hx))
        (List.mem_append.mpr (Or.inr (List.mem_cons_self a l2))) heq
    exact hdis (hxa ▸ hx) (List.mem_cons_self a l2)
  · intro x hx heq
    have hxa : x = a :=
      hinj (List.mem_append.mpr (Or.inr (List.mem_cons_of_mem a hx)))
        (List.mem_append.mpr (Or.inr (List.mem_cons_self a l2))) heq
    exact (List.nodup_cons.mp hnd2).1 (hxa ▸ hx)

/-- `upsertClient` keeps the Telegram-id column duplicate-free. -/
theorem upsertClient_keys_nodup {cl : List ClientRow} {tNow : Nat} {u : ClientUpsert}
    (hnd : (cl.map ClientRow.telegramId).Nodup) :
    ((upsertClient tNow cl u).map ClientRow.telegramId).Nodup := by
  unfold upsertClient
  by_cases hany : (cl.any fun r => r.telegramId == u.telegramId) = true
  · rw [if_pos hany]
    obtain ⟨a, ha, hka⟩ : ∃ a ∈ cl, a.telegramId = u.telegramId := by
      simpa using hany
    obtain ⟨l1, l2, rfl, h1, h2⟩ := nodup_mem_sandwich ClientRow.telegramId hnd ha
    rw [updateLastBy_sandwich _ _ _ _ _ (by simp [hka])
      (fun x hx => by simp [hka ▸ h1 x hx]) (fun x hx => by simp [hka ▸ h2 x hx])]
    have : ((l1 ++ mergeClientRow u a :: l2).map ClientRow.telegramId)
        = ((l1 ++ a :: l2).map ClientRow.telegramId) := by
      simp [mergeClientRow]
    rw [this]
    exact hnd
  · rw [if_neg hany]
    have hno : ∀ x ∈ cl, x.telegramId ≠ u.telegramId := by
      intro x hx heq
      have := List.any_eq_false.mp (Bool.eq_false_iff.mpr hany) x hx
      simp [heq] at this
    rw [List.map_append]
    refine List.Nodup.append hnd (by simp [freshClientRow]) ?_
    intro k hk1 hk2
    simp only [freshClientRow, List.map_cons, List.map_nil, List.mem_singleton] at hk2
    obtain ⟨x, hx, hkx⟩ := List.mem_map.mp hk1
    exact hno x hx (by rw [hkx, hk2])

/-- After an upsert for `tg` whose payload carries `lastAppointmentAtUtc = t`,
the lookup for `tg` resolves to a row stamped `t`. -/
theorem lastClient_upsert_self {cl : List ClientRow} {tNow t tg : Nat}
    (hnd : (cl.map ClientRow.telegramId).Nodup) :
    ∃ cr, lastClient (upsertClient tNow cl
        { telegramId := some tg, lastAppointmentAtUtc := some t }) tg = some cr
      ∧ cr.lastAppointmentAtUtc = some t := by
  unfold upsertClient lastClient
  by_cases hany : (cl.any fun r => r.telegramId == some tg) = true
  · rw [if_pos hany]
    obtain ⟨a, ha, hka⟩ : ∃ a ∈ cl, a.telegramId = some tg := by
      simpa using hany
    obtain ⟨l1, l2, rfl, h1, h2⟩ := nodup_mem_sandwich ClientRow.telegramId hnd ha
    rw [updateLastBy_sandwich _ _ _ _ _ (by simp [hka])
      (fun x hx => by simp [hka ▸ h1 x hx]) (fun x hx => by simp [hka ▸ h2 x hx])]
    rw [filter_sandwich _ _ _ _ (by simp [mergeClientRow, hka])
      (fun x hx => by simp [hka ▸ h1 x hx]) (fun x hx => by simp [hka ▸ h2 x hx])]
    exact ⟨mergeClientRow { telegramId := some tg, lastAppointmentAtUtc := some t } a,
      rfl, rfl⟩
  · rw [if_neg hany]
    have hno : ∀ x ∈ cl, (fun r : ClientRow => r.telegramId == some tg) x = false := by
      intro x hx
      have := List.any_eq_false.mp (Bool.eq_false_iff.mpr hany) x hx
      simpa using this
    rw [List.filter_append, List.filter_eq_nil_iff.mpr (by intro x hx; simp [hno x hx])]
    refine ⟨freshClientRow tNow { telegramId := some tg, lastAppointmentAtUtc := some t },
      ?_, rfl⟩
    rw [List.nil_append]
    rw [show (List.filter (fun r : ClientRow => r.telegramId == some tg)
        [freshClientRow tNow { telegramId := some tg, lastAppointmentAtUtc := some t }])
      = [freshClientRow tNow { telegramId := some tg, lastAppointmentAtUtc := some t }]
      from by simp [freshClientRow]]
    rfl

/-- An upsert for a different Telegram id leaves the lookup for `tg`
untouched. -/
theorem lastClient_upsert_other {cl : List ClientRow} {tNow tg : Nat}
    {u : ClientUpsert} (hne : u.telegramId ≠ some tg)
    (hnd : (cl.map ClientRow.telegramId).Nodup) :
    lastClient (upsertClient tNow cl u) tg = lastClient cl tg := by
  unfold upsertClient lastClient
  by_cases hany : (cl.any fun r => r.telegramId == u.telegramId) = true
  · rw [if_pos hany]
    obtain ⟨a, ha, hka⟩ : ∃ a ∈ cl, a.telegramId = u.telegramId := by
      simpa using hany
    obtain ⟨l1, l2, rfl, h1, h2⟩ := nodup_mem_sandwich ClientRow.telegramId hnd ha
    rw [updateLastBy_sandwich _ _ _ _ _ (by simp [hka])
      (fun x hx => by simp [hka ▸ h1 x hx]) (fun x hx => by simp [hka ▸ h2 x hx])]
    rw [List.filter_append, List.filter_append, List.filter_cons, List.filter_cons]
    rw [if_neg (by simp [mergeClientRow, hka, hne]), if_neg (by simp [hka, hne])]
  · have hfresh : List.filter (fun r : ClientRow => r.telegramId == some tg)
        [freshClientRow tNow u] = [] := by
      simp [freshClientRow, hne]
    rw [if_neg hany, List.filter_append, hfresh, List.append_nil]

/-- A fold whose step fixes every state is the identity. -/
theorem foldl_fix {α β : Type} (f : β → α → β) (L : List α) (s : β)
    (h : ∀ a ∈ L, ∀ x, f x a = x) : L.foldl f s = s := by
  induction L generalizing s with
  | nil => rfl
  | cons a rest ih =>
    rw [List.foldl_cons, h a (List.mem_cons_self a rest)]
    exact ih s (fun b hb x => h b (List.mem_cons_of_mem a hb) x)

/-- The sweep's due test: the end instant has passed
(`isBefore || isSame`). -/
def sweepDue (now : Nat) (a : AppointmentRow) : Bool :=
  decide (absMin a.date a.timeEnd ≤ now)

/-- The cumulative effect of the sweep after processing the prefix `P` of
its worklist: a row is completed exactly when it is one of the processed due
rows. -/
def sweepMark (now t : Nat) (P : List AppointmentRow) (r : AppointmentRow) :
    AppointmentRow :=
  if r.id ∈ (P.filter (sweepDue now)).map AppointmentRow.id then completeRow t r else r

theorem sweepMark_id (now t : Nat) (P : List AppointmentRow) (r : AppointmentRow) :
    (sweepMark now t P r).id = r.id := by
  unfold sweepMark
  split <;> rfl

/-- Completing the only row carrying `id` rewrites exactly that row and
refreshes its client (when it has a Telegram id). -/
theorem updateAppointmentStatus_complete_sandwich
    (sr : List ScheduleRow) (cl : List ClientRow) (l1 l2 : List AppointmentRow)
    (a : AppointmentRow) (id t tNow : Nat)
    (hpa : a.id = id) (h1 : ∀ x ∈ l1, x.id ≠ id) (h2 : ∀ x ∈ l2, x.id ≠ id) :
    updateAppointmentStatus ⟨sr, l1 ++ a :: l2, cl⟩ id STATUS_COMPLETED none (some t) tNow
      = ⟨sr, l1 ++ completeRow t a :: l2,
          match a.telegramId with
          | some tg =>
            upsertClient tNow cl { telegramId := some tg, lastAppointmentAtUtc := some t }
          | none => cl⟩ := by
  have hfa : (fun r : AppointmentRow => r.id == id) a = true := by simp [hpa]
  have hf1 : ∀ x ∈ l1, (fun r : AppointmentRow => r.id == id) x = false := by
    intro x hx
    simp [h1 x hx]
  have hf2 : ∀ x ∈ l2, (fun r : AppointmentRow => r.id == id) x = false := by
    intro x hx
    simp [h2 x hx]
  unfold updateAppointmentStatus
  rw [show (⟨sr, l1 ++ a :: l2, cl⟩ : World).appointmentRows = l1 ++ a :: l2 from rfl,
    filter_sandwich (fun r : AppointmentRow => r.id == id) l1 l2 a hfa hf1 hf2,
    List.getLast?_singleton]
  simp only []
  rw [updateLastBy_sandwich (fun r : AppointmentRow => r.id == id)
      (applyStatus STATUS_COMPLETED none (some t)) l1 l2 a hfa hf1 hf2,
    applyStatus_completed]
  simp only [eq_self_iff_true, if_true]
  cases a.telegramId <;> rfl

/-- The clients-sheet part of the sweep invariant: every processed due row's
client has been stamped with the sweep's completion instant. -/
def sweepClientsOk (now t : Nat) (P : List AppointmentRow) (cl : List ClientRow) : Prop :=
  ∀ a ∈ P, sweepDue now a = true → ∀ tg, a.telegramId = some tg →
    ∃ cr, lastClient cl tg = some cr ∧ cr.lastAppointmentAtUtc = some t

/-- The sweep's loop invariant, propagated over the remaining worklist. -/
theorem sweep_go (now t : Nat) (w : World)
    (hids : (w.appointmentRows.map AppointmentRow.id).Nodup) :
    ∀ (todo P : List AppointmentRow) (wcur : World),
      getAllActiveAppointments w = P ++ todo →
      wcur.scheduleRows = w.scheduleRows →
      wcur.appointmentRows = w.appointmentRows.map (sweepMark now t P) →
      (wcur.clients.map ClientRow.telegramId).Nodup →
      sweepClientsOk now t P wcur.clients →
      (todo.foldl (autoCompleteStep now t) wcur).scheduleRows = w.scheduleRows
      ∧ (todo.foldl (autoCompleteStep now t) wcur).appointmentRows
          = w.appointmentRows.map (sweepMark now t (P ++ todo))
      ∧ ((todo.foldl (autoCompleteStep now t) wcur).clients.map ClientRow.telegramId).Nodup
      ∧ sweepClientsOk now t (P ++ todo)
          (todo.foldl (autoCompleteStep now t) wcur).clients := by
  have hact_nd : ((getAllActiveAppointments w).map AppointmentRow.id).Nodup :=
    hids.sublist ((List.filter_sublist _).map AppointmentRow.id)
  intro todo
  induction todo with
  | nil =>
    intro P wcur hsplit hsch happ hnd hok
    simp only [List.foldl_nil, List.append_nil]
    exact ⟨hsch, happ, hnd, hok⟩
  | cons a todo ih =>
    intro P wcur hsplit hsch happ hnd hok
    simp only [List.foldl_cons]
    have hamem : a ∈ getAllActiveAppointments w := by
      rw [hsplit]
      exact List.mem_append.mpr (Or.inr (List.mem_cons_self a todo))
    have hawmem : a ∈ w.appointmentRows := (List.mem_filter.mp hamem).1
    have haP : a.id ∉ P.map AppointmentRow.id := by
      rw [hsplit, List.map_append] at hact_nd
      have hdis := List.disjoint_of_nodup_append hact_nd
      intro hmem
      exact hdis hmem (by simp)
    have hmark_a : sweepMark now t P a = a := by
      unfold sweepMark
      rw [if_neg ?hna]
      case hna =>
        intro hmem
        obtain ⟨x, hx, hxa⟩ := List.mem_map.mp hmem
        exact haP (List.mem_map.mpr ⟨x, (List.mem_filter.mp hx).1, hxa⟩)
    have hPP : (P ++ [a]) ++ todo = P ++ a :: todo := by simp
    have hsplit2 : getAllActiveAppointments w = (P ++ [a]) ++ todo := by
      rw [hsplit, hPP]
    by_cases hdue : absMin a.date a.timeEnd ≤ now
    · -- the appointment is due: complete it
      have hstep : autoCompleteStep now t wcur a
          = updateAppointmentStatus wcur a.id STATUS_COMPLETED none (some t) t := by
        unfold autoCompleteStep
        rw [if_pos hdue]
      obtain ⟨l1, l2, hw, h1, h2⟩ := nodup_mem_sandwich AppointmentRow.id hids hawmem
      have hacur : wcur.appointmentRows
          = (l1.map (sweepMark now t P)) ++ a :: (l2.map (sweepMark now t P)) := by
        rw [happ, hw, List.map_append, List.map_cons, hmark_a]
      have hwcur : wcur = ⟨w.scheduleRows,
          (l1.map (sweepMark now t P)) ++ a :: (l2.map (sweepMark now t P)),
          wcur.clients⟩ := by
        calc wcur = ⟨wcur.scheduleRows, wcur.appointmentRows, wcur.clients⟩ := rfl
        _ = _ := by rw [hsch, hacur]
      rw [hstep, hwcur]
      rw [updateAppointmentStatus_complete_sandwich w.scheduleRows wcur.clients
        (l1.map (sweepMark now t P)) (l2.map (sweepMark now t P)) a a.id t t rfl
        (by
          intro x hx
          obtain ⟨y, hy, hyx⟩ := List.mem_map.mp hx
          rw [← hyx, sweepMark_id]
          exact h1 y hy)
        (by
          intro x hx
          obtain ⟨y, hy, hyx⟩ := List.mem_map.mp hx
          rw [← hyx, sweepMark_id]
          exact h2 y hy)]
      have hfiltP2 : (P ++ [a]).filter (sweepDue now)
          = P.filter (sweepDue now) ++ [a] := by
        rw [List.filter_append]
        congr 1
        simp [sweepDue, hdue]
      have hmark2_of_ne : ∀ x : AppointmentRow, x.id ≠ a.id →
          sweepMark now t (P ++ [a]) x = sweepMark now t P x := by
        intro x hx
        unfold sweepMark
        rw [hfiltP2, List.map_append]
        by_cases hin : x.id ∈ (P.filter (sweepDue now)).map AppointmentRow.id
        · rw [if_pos (List.mem_append.mpr (Or.inl hin)), if_pos hin]
        · rw [if_neg ?_, if_neg hin]
          intro hmem
          rcases List.mem_append.mp hmem with h | h
          · exact hin h
          · simp at h
            exact hx h
      have hmark2_a : sweepMark now t (P ++ [a]) a = completeRow t a := by
        unfold sweepMark
        rw [hfiltP2, List.map_append, if_pos (List.mem_append.mpr (Or.inr (by simp)))]
      have happ2 : (l1.map (sweepMark now t P)) ++ completeRow t a
            :: (l2.map (sweepMark now t P))
          = w.appointmentRows.map (sweepMark now t (P ++ [a])) := by
        rw [hw, List.map_append, List.map_cons, hmark2_a]
        congr 1
        · exact (List.map_congr_left (fun x hx => (hmark2_of_ne x (h1 x hx)).symm))
        · congr 1
          exact (List.map_congr_left (fun x hx => (hmark2_of_ne x (h2 x hx)).symm))
      cases htga : a.telegramId with
      | none =>
        simp only []
        have hok2 : sweepClientsOk now t (P ++ [a]) wcur.clients := by
          intro b hb hdueb tg htg
          rcases List.mem_append.mp hb with hb | hb
          · exact hok b hb hdueb tg htg
          · rw [List.mem_singleton] at hb
            subst hb
            rw [htga] at htg
            cases htg
        obtain ⟨c1, c2, c3, c4⟩ := ih (P ++ [a])
          ⟨w.scheduleRows, (l1.map (sweepMark now t P)) ++ completeRow t a
            :: (l2.map (sweepMark now t P)), wcur.clients⟩
          hsplit2 rfl happ2 hnd hok2
        rw [hPP] at c2 c4
        exact ⟨c1, c2, c3, c4⟩
      | some tga =>
        simp only []
        have hok2 : sweepClientsOk now t (P ++ [a])
            (upsertClient t wcur.clients
              { telegramId := some tga, lastAppointmentAtUtc := some t }) := by
          intro b hb hdueb tg htg
          rcases List.mem_append.mp hb with hb | hb
          · by_cases htgeq : tg = tga
            · subst htgeq
              exact lastClient_upsert_self hnd
            · obtain ⟨cr, hcr, hlast⟩ := hok b hb hdueb tg htg
              refine ⟨cr, ?_, hlast⟩
              rw [lastClient_upsert_other
                (fun h => htgeq (Option.some_injective _ h).symm) hnd]
              exact hcr
          · rw [List.mem_singleton] at hb
            subst hb
            rw [htga] at htg
            obtain rfl := Option.some_injective _ htg
            exact lastClient_upsert_self hnd
        obtain ⟨c1, c2, c3, c4⟩ := ih (P ++ [a])
          ⟨w.scheduleRows, (l1.map (sweepMark now t P)) ++ completeRow t a
            :: (l2.map (sweepMark now t P)),
            upsertClient t wcur.clients
              { telegramId := some tga, lastAppointmentAtUtc := some t }⟩
          hsplit2 rfl happ2 (upsertClient_keys_nodup hnd) hok2
        rw [hPP] at c2 c4
        exact ⟨c1, c2, c3, c4⟩
    · -- not yet due: the loop body does nothing
      have hstep : autoCompleteStep now t wcur a = wcur := by
        unfold autoCompleteStep
        rw [if_neg hdue]
      rw [hstep]
      have hmark_eq : w.appointmentRows.map (sweepMark now t (P ++ [a]))
          = w.appointmentRows.map (sweepMark now t P) := by
        apply List.map_congr_left
        intro x hx
        unfold sweepMark
        rw [show (P ++ [a]).filter (sweepDue now) = P.filter (sweepDue now) from by
          rw [List.filter_append,
            show [a].filter (sweepDue now) = [] from by simp [sweepDue, hdue]]
          simp]
      have hok2 : sweepClientsOk now t (P ++ [a]) wcur.clients := by
        intro b hb hdueb tg htg
        rcases List.mem_append.mp hb with hb | hb
        · exact hok b hb hdueb tg htg
        · rw [List.mem_singleton] at hb
          subst hb
          exact absurd hdueb (by simp [sweepDue, hdue])
      obtain ⟨c1, c2, c3, c4⟩ := ih (P ++ [a]) wcur hsplit2 hsch
        (by rw [happ, hmark_eq]) hnd hok2
      rw [hPP] at c2 c4
      exact ⟨c1, c2, c3, c4⟩

theorem sweepMark_nil (now t : Nat) (r : AppointmentRow) :
    sweepMark now t [] r = r := by
  unfold sweepMark
  simp

/-- C5: the completion sweep transitions every Active appointment whose
`timeEnd` has passed to Completed, stamping `completedAtUtc`, and refreshes
the client's `lastAppointmentAtUtc`; appointments whose `timeEnd` has not
yet passed (and non-Active rows) are left unchanged. -/
theorem autoCompleteSweep_spec (w : World) (now t : Nat)
    (hids : (w.appointmentRows.map AppointmentRow.id).Nodup)
    (hcl : (w.clients.map ClientRow.telegramId).Nodup) :
    (autoCompleteSweep now t w).scheduleRows = w.scheduleRows
    ∧ (autoCompleteSweep now t w).appointmentRows
        = w.appointmentRows.map (fun r =>
            if r.status = STATUS_ACTIVE ∧ absMin r.date r.timeEnd ≤ now
            then completeRow t r else r)
    ∧ ∀ r ∈ w.appointmentRows, r.status = STATUS_ACTIVE →
        absMin r.date r.timeEnd ≤ now → ∀ tg, r.telegramId = some tg →
          ∃ cr, lastClient (autoCompleteSweep now t w).clients tg = some cr
            ∧ cr.lastAppointmentAtUtc = some t := by
  have happ0 : w.appointmentRows = w.appointmentRows.map (sweepMark now t []) := by
    have h := List.map_congr_left
      (fun (x : AppointmentRow) (_ : x ∈ w.appointmentRows) => sweepMark_nil now t x)
    rw [h]
    simp
  obtain ⟨c1, c2, c3, c4⟩ := sweep_go now t w hids (getAllActiveAppointments w) [] w
    (List.nil_append _).symm rfl happ0 hcl (by intro b hb; cases hb)
  rw [List.nil_append] at c2 c4
  have hinj := List.inj_on_of_nodup_map hids
  refine ⟨c1, ?_, ?_⟩
  · rw [show autoCompleteSweep now t w
      = (getAllActiveAppointments w).foldl (autoCompleteStep now t) w from rfl, c2]
    apply List.map_congr_left
    intro r hr
    unfold sweepMark
    by_cases hcond : r.status = STATUS_ACTIVE ∧ absMin r.date r.timeEnd ≤ now
    · rw [if_pos ?_, if_pos hcond]
      refine List.mem_map.mpr ⟨r, List.mem_filter.mpr ⟨?_, ?_⟩, rfl⟩
      · exact List.mem_filter.mpr ⟨hr, by simp [hcond.1]⟩
      · simp [sweepDue, hcond.2]
    · rw [if_neg ?_, if_neg hcond]
      intro hmem
      obtain ⟨x, hx, hxr⟩ := List.mem_map.mp hmem
      have hx2 := List.mem_filter.mp hx
      have hx3 := List.mem_filter.mp hx2.1
      have hxw : x ∈ w.appointmentRows := hx3.1
      have hxeq : x = r := hinj hxw hr hxr
      subst hxeq
      refine hcond ⟨by simpa using hx3.2, by simpa [sweepDue] using hx2.2⟩
  · intro r hr hact hdue tg htg
    exact c4 r (List.mem_filter.mpr ⟨hr, by simp [hact]⟩)
      (by simp [sweepDue, hdue]) tg htg

/-- C6: running the completion sweep twice with the same clock and the same
completion stamp yields the same state as running it once; the second run
does not touch rows completed by the first. -/
theorem autoCompleteSweep_idempotent (w : World) (now t : Nat)
    (hids : (w.appointmentRows.map AppointmentRow.id).Nodup)
    (hcl : (w.clients.map ClientRow.telegramId).Nodup) :
    autoCompleteSweep now t (autoCompleteSweep now t w) = autoCompleteSweep now t w := by
  obtain ⟨c1, c2, c3⟩ := autoCompleteSweep_spec w now t hids hcl
  have hnodue : ∀ a ∈ getAllActiveAppointments (autoCompleteSweep now t w),
      ¬(absMin a.date a.timeEnd ≤ now) := by
    intro a ha
    have ha2 := List.mem_filter.mp ha
    have haw : a ∈ (autoCompleteSweep now t w).appointmentRows := ha2.1
    have hast : a.status = STATUS_ACTIVE := by simpa using ha2.2
    rw [c2] at haw
    obtain ⟨r, hrw, hra⟩ := List.mem_map.mp haw
    by_cases hcond : r.status = STATUS_ACTIVE ∧ absMin r.date r.timeEnd ≤ now
    · rw [if_pos hcond] at hra
      rw [← hra] at hast
      exact absurd hast (by simp [completeRow, STATUS_COMPLETED, STATUS_ACTIVE])
    · rw [if_neg hcond] at hra
      subst hra
      intro hdue
      exact hcond ⟨hast, hdue⟩
  show (getAllActiveAppointments (autoCompleteSweep now t w)).foldl
      (autoCompleteStep now t) (autoCompleteSweep now t w) = autoCompleteSweep now t w
  apply foldl_fix
  intro a ha x
  unfold autoCompleteStep
  rw [if_neg (hnodue a ha)]

/-- The C5/C6 witness store: one Active appointment past its end
(09:00–10:00, client 7), one Active future appointment (15:00–16:00). -/
def sweepWorld : World :=
  { scheduleRows := [],
    appointmentRows := [mkActiveAppt 1 1 0 540 600 (some 7),
      mkActiveAppt 2 2 0 900 960 none],
    clients := [] }

/-- Witness for C5: at 11:40 (700 min) the past appointment is completed
with stamp 99, the future one is untouched, and client 7's
`lastAppointmentAtUtc` is refreshed to 99. -/
theorem autoCompleteSweep_spec_witness :
    (autoCompleteSweep 700 99 sweepWorld).scheduleRows = sweepWorld.scheduleRows
    ∧ (autoCompleteSweep 700 99 sweepWorld).appointmentRows
        = sweepWorld.appointmentRows.map (fun r =>
            if r.status = STATUS_ACTIVE ∧ absMin r.date r.timeEnd ≤ 700
            then completeRow 99 r else r)
    ∧ ∃ cr, lastClient (autoCompleteSweep 700 99 sweepWorld).clients 7 = some cr
        ∧ cr.lastAppointmentAtUtc = some 99 := by
  obtain ⟨c1, c2, c3⟩ := autoCompleteSweep_spec sweepWorld 700 99 (by decide) (by decide)
  exact ⟨c1, c2, c3 (mkActiveAppt 1 1 0 540 600 (some 7)) (by decide) (by decide)
    (by decide) 7 (by decide)⟩

/-- Witness for C6 at the same concrete store. -/
theorem autoCompleteSweep_idempotent_witness :
    autoCompleteSweep 700 99 (autoCompleteSweep 700 99 sweepWorld)
      = autoCompleteSweep 700 99 sweepWorld :=
  autoCompleteSweep_idempotent sweepWorld 700 99 (by decide) (by decide)

/-! ## C1 — race convergence -/

/-- The comparator decides the lexicographic order on
`(createdAtUtc, id)`. -/
theorem raceLt_iff {a b : AppointmentRow} :
    raceLt a b = true
      ↔ (a.createdAtUtc < b.createdAtUtc
        ∨ (a.createdAtUtc = b.createdAtUtc ∧ a.id < b.id)) := by
  unfold raceLt
  by_cases h : a.createdAtUtc = b.createdAtUtc
  · rw [if_pos (by simp [h])]
    simp [h]
  · rw [if_neg (by simp [h])]
    simp [h]

theorem raceLt_irrefl (a : AppointmentRow) : raceLt a a = false := by
  rw [Bool.eq_false_iff]
  rw [Ne, raceLt_iff]
  omega

theorem raceLt_trans {a b c : AppointmentRow} (h1 : raceLt a b = true)
    (h2 : raceLt b c = true) : raceLt a c = true := by
  rw [raceLt_iff] at *
  omega

theorem raceLt_neg_trans {a b c : AppointmentRow} (h1 : raceLt b a = false)
    (h2 : raceLt a c = false) : raceLt b c = false := by
  rw [Bool.eq_false_iff, Ne, raceLt_iff] at *
  omega

/-- The comparator reads only `createdAtUtc` and `id`. -/
theorem raceLt_congr {a b b2 : AppointmentRow}
    (hc : b2.createdAtUtc = b.createdAtUtc) (hi : b2.id = b.id) :
    raceLt a b2 = raceLt a b := by
  unfold raceLt
  rw [hc, hi]

/-- The sort head is a member on which no element improves. -/
theorem raceWinner_spec {l : List AppointmentRow} {m : AppointmentRow}
    (h : raceWinner l = some m) : m ∈ l ∧ ∀ x ∈ l, raceLt x m = false := by
  cases l with
  | nil => cases h
  | cons a rest =>
    have hm : m = rest.foldl (fun w b => if raceLt b w then b else w) a := by
      have : some (rest.foldl (fun w b => if raceLt b w then b else w) a) = some m := h
      exact (Option.some_injective _ this).symm
    subst hm
    clear h
    induction rest generalizing a with
    | nil =>
      refine ⟨by simp, ?_⟩
      intro x hx
      rw [List.mem_singleton] at hx
      subst hx
      simp [raceLt_irrefl]
    | cons b rest ih =>
      rw [List.foldl_cons]
      obtain ⟨hmem, hmin⟩ := ih (if raceLt b a then b else a)
      by_cases hba : raceLt b a = true
      · rw [if_pos hba] at hmem hmin ⊢
        refine ⟨?_, ?_⟩
        · rcases List.mem_cons.mp hmem with h | h
          · rw [h]
            exact List.mem_cons_of_mem _ (List.mem_cons_self _ _)
          · exact List.mem_cons_of_mem _ (List.mem_cons_of_mem _ h)
        · intro x hx
          rcases List.mem_cons.mp hx with h | h
          · subst h
            rw [Bool.eq_false_iff]
            intro hares
            have := raceLt_trans hba hares
            rw [hmin b (List.mem_cons_self _ _)] at this
            cases this
          · exact hmin x h
      · rw [if_neg hba] at hmem hmin ⊢
        have hba2 : raceLt b a = false := Bool.eq_false_iff.mpr hba
        refine ⟨?_, ?_⟩
        · rcases List.mem_cons.mp hmem with h | h
          · rw [h]
            exact List.mem_cons_self _ _
          · exact List.mem_cons_of_mem _ (List.mem_cons_of_mem _ h)
        · intro x hx
          rcases List.mem_cons.mp hx with h | h
          · subst h
            exact hmin x (List.mem_cons_self _ _)
          · rcases List.mem_cons.mp h with h2 | h2
            · subst h2
              exact raceLt_neg_trans hba2 (hmin a (List.mem_cons_self _ _))
            · exact hmin x (List.mem_cons_of_mem _ h2)

/-- A list holding two distinct elements has length at least 2. -/
theorem one_lt_length_of_two_mem {α : Type} {l : List α} {a b : α}
    (ha : a ∈ l) (hb : b ∈ l) (hne : a ≠ b) : 1 < l.length := by
  obtain ⟨s, u, rfl⟩ := List.append_of_mem ha
  rcases List.mem_append.mp hb with h | h
  · have := List.length_pos.mpr (List.ne_nil_of_mem h)
    simp [List.length_append]
    omega
  · rcases List.mem_cons.mp h with h2 | h2
    · exact absurd h2.symm hne
    · have := List.length_pos.mpr (List.ne_nil_of_mem h2)
      simp [List.length_append]
      omega

/-- The cancellation instant each racer would use, read off from its
position in the interleaving. -/
def cancelTimeOf (order : List (AppointmentRow × Nat)) (i : Nat) : Nat :=
  ((order.filter (fun p => p.1.id == i)).map Prod.snd).headD 0

/-- The cumulative effect of the race reconciliations after the entries with
ids `P` have run: every processed non-winner is cancelled. -/
def raceMark (order : List (AppointmentRow × Nat)) (winId : Nat) (P : List Nat)
    (r : AppointmentRow) : AppointmentRow :=
  if r.id ∈ P ∧ r.id ≠ winId then
    { r with
      status := STATUS_CANCELLED,
      cancelledAtUtc := some (cancelTimeOf order r.id) }
  else r

theorem raceMark_id (order : List (AppointmentRow × Nat)) (winId : Nat)
    (P : List Nat) (r : AppointmentRow) : (raceMark order winId P r).id = r.id := by
  unfold raceMark
  split <;> rfl

theorem raceMark_createdAtUtc (order : List (AppointmentRow × Nat)) (winId : Nat)
    (P : List Nat) (r : AppointmentRow) :
    (raceMark order winId P r).createdAtUtc = r.createdAtUtc := by
  unfold raceMark
  split <;> rfl

theorem raceMark_date (order : List (AppointmentRow × Nat)) (winId : Nat)
    (P : List Nat) (r : AppointmentRow) :
    (raceMark order winId P r).date = r.date := by
  unfold raceMark
  split <;> rfl

theorem raceMark_timeStart (order : List (AppointmentRow × Nat)) (winId : Nat)
    (P : List Nat) (r : AppointmentRow) :
    (raceMark order winId P r).timeStart = r.timeStart := by
  unfold raceMark
  split <;> rfl

theorem raceMark_timeEnd (order : List (AppointmentRow × Nat)) (winId : Nat)
    (P : List Nat) (r : AppointmentRow) :
    (raceMark order winId P r).timeEnd = r.timeEnd := by
  unfold raceMark
  split <;> rfl

/-- One racer's post-commit reconciliation with its own committed interval
and cancellation instant (the race block of `bookAppointment` as invoked by
the racer that committed the row `p.1`). -/
def selfReconcile (dateStr : Nat) (w : World) (p : AppointmentRow × Nat) :
    World × Bool :=
  reconcileRace w dateStr (absMin p.1.date p.1.timeStart)
    (absMin p.1.date p.1.timeEnd) p.1.id p.2

/-- The interleaving of the racers' reconciliations: each runs its race
block in turn against the shared store; the second component records, per
racer, whether it reported `slot_taken`. -/
def runRace (dateStr : Nat) : World → List (AppointmentRow × Nat) →
    World × List (Nat × Bool)
  | w, [] => (w, [])
  | w, p :: rest =>
    ((runRace dateStr (selfReconcile dateStr w p).1 rest).1,
      (p.1.id, (selfReconcile dateStr w p).2)
        :: (runRace dateStr (selfReconcile dateStr w p).1 rest).2)

theorem raceMark_not_mem {order : List (AppointmentRow × Nat)} {winId : Nat}
    {P : List Nat} {r : AppointmentRow} (h : r.id ∉ P) :
    raceMark order winId P r = r := by
  unfold raceMark
  rw [if_neg (fun hc => h hc.1)]

theorem raceMark_winner {order : List (AppointmentRow × Nat)} {winId : Nat}
    {P : List Nat} {r : AppointmentRow} (h : r.id = winId) :
    raceMark order winId P r = r := by
  unfold raceMark
  rw [if_neg (fun hc => hc.2 h)]

/-- Appending a processed id that is not a row's id does not change how that
row is marked. -/
theorem raceMark_snoc_ne {order : List (AppointmentRow × Nat)} {winId i : Nat}
    {P : List Nat} {x : AppointmentRow} (h : x.id ≠ i) :
    raceMark order winId (P ++ [i]) x = raceMark order winId P x := by
  unfold raceMark
  by_cases hin : x.id ∈ P ∧ x.id ≠ winId
  · rw [if_pos ⟨List.mem_append.mpr (Or.inl hin.1), hin.2⟩, if_pos hin]
  · rw [if_neg ?_, if_neg hin]
    intro hc
    rcases List.mem_append.mp hc.1 with hm | hm
    · exact hin ⟨hm, hc.2⟩
    · rw [List.mem_singleton] at hm
      exact h hm

/-- One reconciliation step at the race invariant: the store moves from the
`P`-marked state to the `P ++ [r.id]`-marked state, and the step reports
`slot_taken` exactly when `r` is not the winner. -/
theorem race_step (d s0 winId : Nat) (rows : List AppointmentRow)
    (order : List (AppointmentRow × Nat))
    (hdate : ∀ x ∈ rows, x.date = d) (hstart : ∀ x ∈ rows, x.timeStart = s0)
    (hend : ∀ x ∈ rows, s0 < x.timeEnd)
    (hactive : ∀ x ∈ rows, x.status = STATUS_ACTIVE)
    (hids : (rows.map AppointmentRow.id).Nodup)
    (win : AppointmentRow) (hwmem : win ∈ rows) (hwid : win.id = winId)
    (hwin : ∀ x ∈ rows, x.id ≠ winId → raceLt win x = true)
    (sr : List ScheduleRow) (cl : List ClientRow)
    (P : List Nat) (r : AppointmentRow) (t : Nat)
    (hrmem : r ∈ rows) (hrP : r.id ∉ P)
    (hct : cancelTimeOf order r.id = t) :
    selfReconcile d ⟨sr, rows.map (raceMark order winId P), cl⟩ (r, t)
      = (⟨sr, rows.map (raceMark order winId (P ++ [r.id])), cl⟩,
        decide (r.id ≠ winId)) := by
  have hfr : raceMark order winId P r = r := raceMark_not_mem hrP
  have hfw : raceMark order winId P win = win := raceMark_winner hwid
  have hrcur : r ∈ rows.map (raceMark order winId P) :=
    List.mem_map.mpr ⟨r, hrmem, hfr⟩
  have hwcur : win ∈ rows.map (raceMark order winId P) :=
    List.mem_map.mpr ⟨win, hwmem, hfw⟩
  have hover_mem : ∀ x : AppointmentRow,
      x ∈ raceOverlapping ⟨sr, rows.map (raceMark order winId P), cl⟩ d
          (absMin r.date r.timeStart) (absMin r.date r.timeEnd)
        ↔ x ∈ rows.map (raceMark order winId P) ∧ x.date = d
          ∧ x.status = STATUS_ACTIVE
          ∧ intervalsOverlap (absMin r.date r.timeStart) (absMin r.date r.timeEnd)
              (absMin x.date x.timeStart) (absMin x.date x.timeEnd) = true := by
    intro x
    unfold raceOverlapping getAppointmentsByDate
    rw [List.mem_filter, List.mem_filter]
    simp [and_assoc]
  have hoverlap_with : ∀ x ∈ rows,
      intervalsOverlap (absMin r.date r.timeStart) (absMin r.date r.timeEnd)
        (absMin x.date x.timeStart) (absMin x.date x.timeEnd) = true := by
    intro x hx
    rw [hdate r hrmem, hstart r hrmem, hdate x hx, hstart x hx]
    unfold intervalsOverlap absMin
    have h1 := hend r hrmem
    have h2 := hend x hx
    simp only [Bool.and_eq_true, decide_eq_true_eq]
    omega
  have hr_over : r ∈ raceOverlapping ⟨sr, rows.map (raceMark order winId P), cl⟩ d
      (absMin r.date r.timeStart) (absMin r.date r.timeEnd) :=
    (hover_mem r).mpr ⟨hrcur, hdate r hrmem, hactive r hrmem, hoverlap_with r hrmem⟩
  have hw_over : win ∈ raceOverlapping ⟨sr, rows.map (raceMark order winId P), cl⟩ d
      (absMin r.date r.timeStart) (absMin r.date r.timeEnd) :=
    (hover_mem win).mpr
      ⟨hwcur, hdate win hwmem, hactive win hwmem, hoverlap_with win hwmem⟩
  have hwinner_id : ∀ m, raceWinner (raceOverlapping
        ⟨sr, rows.map (raceMark order winId P), cl⟩ d
        (absMin r.date r.timeStart) (absMin r.date r.timeEnd)) = some m →
      m.id = winId := by
    intro m hm
    obtain ⟨hmem, hmin⟩ := raceWinner_spec hm
    by_contra hne
    obtain ⟨y, hy, hym⟩ := List.mem_map.mp ((hover_mem m).mp hmem).1
    have hid : m.id = y.id := by rw [← hym, raceMark_id]
    have hcr : m.createdAtUtc = y.createdAtUtc := by rw [← hym, raceMark_createdAtUtc]
    have hlt2 : raceLt win m = true := by
      rw [raceLt_congr hcr hid]
      exact hwin y hy (fun hyw => hne (hid ▸ hyw))
    rw [hmin win hw_over] at hlt2
    cases hlt2
  by_cases hcase : r.id = winId
  · -- this racer is the winner: nothing happens
    have hlost : raceLost ⟨sr, rows.map (raceMark order winId P), cl⟩ d
        (absMin r.date r.timeStart) (absMin r.date r.timeEnd) r.id = false := by
      unfold raceLost
      by_cases hlen : 1 < (raceOverlapping ⟨sr, rows.map (raceMark order winId P), cl⟩ d
          (absMin r.date r.timeStart) (absMin r.date r.timeEnd)).length
      · rw [if_pos hlen]
        cases hwm : raceWinner (raceOverlapping
            ⟨sr, rows.map (raceMark order winId P), cl⟩ d
            (absMin r.date r.timeStart) (absMin r.date r.timeEnd)) with
        | none => rfl
        | some m =>
          simp only []
          rw [hwinner_id m hwm, hcase]
          simp
      · rw [if_neg hlen]
    have hmapeq : rows.map (raceMark order winId (P ++ [r.id]))
        = rows.map (raceMark order winId P) := by
      apply List.map_congr_left
      intro x hx
      by_cases hxid : x.id = r.id
      · unfold raceMark
        rw [if_neg (fun hc => hc.2 (hxid.trans hcase)),
          if_neg (fun hc => hc.2 (hxid.trans hcase))]
      · exact raceMark_snoc_ne hxid
    unfold selfReconcile reconcileRace
    simp only []
    rw [if_neg (by rw [hlost]; simp), hmapeq]
    rw [show decide (r.id ≠ winId) = false by simp [hcase]]
  · -- this racer loses: it cancels itself and reports slot_taken
    have hrw_ne : r ≠ win := fun h => hcase (h ▸ hwid)
    have hlen : 1 < (raceOverlapping ⟨sr, rows.map (raceMark order winId P), cl⟩ d
        (absMin r.date r.timeStart) (absMin r.date r.timeEnd)).length :=
      one_lt_length_of_two_mem hr_over hw_over hrw_ne
    obtain ⟨m, hwm⟩ : ∃ m, raceWinner (raceOverlapping
        ⟨sr, rows.map (raceMark order winId P), cl⟩ d
        (absMin r.date r.timeStart) (absMin r.date r.timeEnd)) = some m := by
      cases hol : raceOverlapping ⟨sr, rows.map (raceMark order winId P), cl⟩ d
          (absMin r.date r.timeStart) (absMin r.date r.timeEnd) with
      | nil =>
        rw [hol] at hr_over
        cases hr_over
      | cons x xs => exact ⟨_, rfl⟩
    have hmid : m.id = winId := hwinner_id m hwm
    have hlost : raceLost ⟨sr, rows.map (raceMark order winId P), cl⟩ d
        (absMin r.date r.timeStart) (absMin r.date r.timeEnd) r.id = true := by
      unfold raceLost
      rw [if_pos hlen, hwm]
      simp only []
      rw [hmid]
      simp [hcase]
      intro h
      exact hcase h.symm
    obtain ⟨l1, l2, hw, h1, h2⟩ := nodup_mem_sandwich AppointmentRow.id hids hrmem
    have hcur : rows.map (raceMark order winId P)
        = (l1.map (raceMark order winId P)) ++ [r]
            ++ (l2.map (raceMark order winId P)) := by
      rw [hw, List.map_append, List.map_cons, hfr]
      simp
    have hupd : updateAppointmentStatus
        ⟨sr, rows.map (raceMark order winId P), cl⟩ r.id STATUS_CANCELLED
          (some t) none t
        = ⟨sr, rows.map (raceMark order winId (P ++ [r.id])), cl⟩ := by
      rw [hcur]
      rw [updateAppointmentStatus_cancel_sandwich sr cl
        (l1.map (raceMark order winId P)) (l2.map (raceMark order winId P))
        r r.id t t rfl
        (by
          intro x hx
          obtain ⟨y, hy, hyx⟩ := List.mem_map.mp hx
          rw [← hyx, raceMark_id]
          exact h1 y hy)
        (by
          intro x hx
          obtain ⟨y, hy, hyx⟩ := List.mem_map.mp hx
          rw [← hyx, raceMark_id]
          exact h2 y hy)]
      have hmid2 : raceMark order winId (P ++ [r.id]) r
          = { r with status := STATUS_CANCELLED, cancelledAtUtc := some t } := by
        unfold raceMark
        rw [if_pos ⟨List.mem_append.mpr (Or.inr (by simp)), hcase⟩, hct]
      have hl1 : l1.map (raceMark order winId P)
          = l1.map (raceMark order winId (P ++ [r.id])) :=
        List.map_congr_left (fun x hx => (raceMark_snoc_ne (h1 x hx)).symm)
      have hl2 : l2.map (raceMark order winId P)
          = l2.map (raceMark order winId (P ++ [r.id])) :=
        List.map_congr_left (fun x hx => (raceMark_snoc_ne (h2 x hx)).symm)
      rw [hl1, hl2, ← hmid2, hw, List.map_append, List.map_cons]
      simp
    unfold selfReconcile reconcileRace
    simp only []
    rw [if_pos (by rw [hlost]), hupd]
    rw [show decide (r.id ≠ winId) = true by simp [hcase]]

/-- The race invariant propagated over the interleaving. -/
theorem race_go (d s0 winId : Nat) (rows : List AppointmentRow)
    (order : List (AppointmentRow × Nat))
    (hdate : ∀ x ∈ rows, x.date = d) (hstart : ∀ x ∈ rows, x.timeStart = s0)
    (hend : ∀ x ∈ rows, s0 < x.timeEnd)
    (hactive : ∀ x ∈ rows, x.status = STATUS_ACTIVE)
    (hids : (rows.map AppointmentRow.id).Nodup)
    (honodup : (order.map (fun p => p.1.id)).Nodup)
    (hofst : ∀ p ∈ order, p.1 ∈ rows)
    (win : AppointmentRow) (hwmem : win ∈ rows) (hwid : win.id = winId)
    (hwin : ∀ x ∈ rows, x.id ≠ winId → raceLt win x = true)
    (sr : List ScheduleRow) (cl : List ClientRow) :
    ∀ (todo done : List (AppointmentRow × Nat)),
      order = done ++ todo →
      runRace d ⟨sr, rows.map (raceMark order winId
          (done.map (fun p => p.1.id))), cl⟩ todo
        = (⟨sr, rows.map (raceMark order winId
              ((done ++ todo).map (fun p => p.1.id))), cl⟩,
           todo.map (fun p => (p.1.id, decide (p.1.id ≠ winId)))) := by
  intro todo
  induction todo with
  | nil =>
    intro done horder
    simp [runRace]
  | cons p todo ih =>
    intro done horder
    obtain ⟨r, t⟩ := p
    have hpmem : (r, t) ∈ order := by
      rw [horder]
      exact List.mem_append.mpr (Or.inr (List.mem_cons_self _ _))
    have hrmem : r ∈ rows := hofst (r, t) hpmem
    have hnd2 := honodup
    rw [horder, List.map_append] at hnd2
    have hdis := List.disjoint_of_nodup_append hnd2
    have hrP : r.id ∉ done.map (fun p => p.1.id) := by
      intro hmem
      exact hdis hmem (by simp)
    have hdone_ne : ∀ x ∈ done, x.1.id ≠ r.id := by
      intro x hx heq
      exact hdis (List.mem_map.mpr ⟨x, hx, heq⟩) (by simp)
    have htodo_ne : ∀ x ∈ todo, x.1.id ≠ r.id := by
      have hnd3 : (((r, t) :: todo).map (fun p => p.1.id)).Nodup :=
        (List.nodup_append.mp hnd2).2.1
      rw [List.map_cons, List.nodup_cons] at hnd3
      intro x hx heq
      exact hnd3.1 (List.mem_map.mpr ⟨x, hx, heq⟩)
    have hct : cancelTimeOf order r.id = t := by
      unfold cancelTimeOf
      rw [horder, filter_sandwich (fun p => p.1.id == r.id) done todo (r, t)
        (by simp) (fun x hx => by simp [hdone_ne x hx])
        (fun x hx => by simp [htodo_ne x hx])]
      rfl
    show ((runRace d (selfReconcile d _ (r, t)).1 todo).1,
        ((r, t).1.id, (selfReconcile d _ (r, t)).2)
          :: (runRace d (selfReconcile d _ (r, t)).1 todo).2) = _
    rw [race_step d s0 winId rows order hdate hstart hend hactive hids win hwmem
      hwid hwin sr cl (done.map (fun p => p.1.id)) r t hrmem hrP hct]
    have hPP : done.map (fun p => p.1.id) ++ [r.id]
        = (done ++ [(r, t)]).map (fun p => p.1.id) := by
      simp
    rw [hPP, ih (done ++ [(r, t)]) (by rw [horder]; simp)]
    have hID : ((done ++ [(r, t)]) ++ todo).map (fun p => p.1.id)
        = (done ++ (r, t) :: todo).map (fun p => p.1.id) := by
      simp
    rw [hID]
    rfl

/-- The per-row outcome of a fully reconciled race: every non-winner is
cancelled with its racer's cancellation instant. -/
def cancelLoser (order : List (AppointmentRow × Nat)) (winId : Nat)
    (r : AppointmentRow) : AppointmentRow :=
  if r.id = winId then r
  else { r with
         status := STATUS_CANCELLED,
         cancelledAtUtc := some (cancelTimeOf order r.id) }

/-- C1: after all racing commits for the same `(date, timeStr)` have landed,
the reconciliations — run in any interleaving, each with its own committed
interval and cancellation instant — leave exactly the deterministic winner
(earliest `createdAtUtc`, smallest id on ties) Active; every other racer
transitions its own appointment to Cancelled and reports `slot_taken`, while
the winner's call reports success. -/
theorem race_convergence
    (d s0 : Nat) (rows : List AppointmentRow)
    (order : List (AppointmentRow × Nat)) (sr : List ScheduleRow)
    (cl : List ClientRow)
    (hperm : (order.map Prod.fst).Perm rows)
    (hdate : ∀ x ∈ rows, x.date = d) (hstart : ∀ x ∈ rows, x.timeStart = s0)
    (hend : ∀ x ∈ rows, s0 < x.timeEnd)
    (hactive : ∀ x ∈ rows, x.status = STATUS_ACTIVE)
    (hids : (rows.map AppointmentRow.id).Nodup)
    (win : AppointmentRow) (hwmem : win ∈ rows)
    (hwin : ∀ x ∈ rows, x.id ≠ win.id → raceLt win x = true) :
    (runRace d ⟨sr, rows, cl⟩ order).1
      = ⟨sr, rows.map (cancelLoser order win.id), cl⟩
    ∧ (runRace d ⟨sr, rows, cl⟩ order).2
        = order.map (fun p => (p.1.id, decide (p.1.id ≠ win.id)))
    ∧ ((runRace d ⟨sr, rows, cl⟩ order).1.appointmentRows.filter
          (fun r => r.status == STATUS_ACTIVE)).map AppointmentRow.id
        = [win.id] := by
  have honodup : (order.map (fun p => p.1.id)).Nodup := by
    have h1 : (order.map Prod.fst).map AppointmentRow.id
        = order.map (fun p => p.1.id) := by
      rw [List.map_map]
      rfl
    rw [← h1]
    exact ((hperm.map AppointmentRow.id).nodup_iff).mpr hids
  have hofst : ∀ p ∈ order, p.1 ∈ rows := by
    intro p hp
    exact hperm.mem_iff.mp (List.mem_map.mpr ⟨p, hp, rfl⟩)
  have hinit : rows.map (raceMark order win.id
      (List.map (fun p => p.1.id) ([] : List (AppointmentRow × Nat)))) = rows := by
    calc rows.map (raceMark order win.id
          (List.map (fun p => p.1.id) ([] : List (AppointmentRow × Nat))))
        = rows.map (fun x => x) :=
          List.map_congr_left (fun x _ => raceMark_not_mem (by simp))
      _ = rows := by simp
  have hgo := race_go d s0 win.id rows order hdate hstart hend hactive hids
    honodup hofst win hwmem rfl hwin sr cl order [] (by simp)
  rw [hinit, List.nil_append] at hgo
  have hallin : ∀ r ∈ rows, r.id ∈ order.map (fun p => p.1.id) := by
    intro r hr
    have : r.id ∈ rows.map AppointmentRow.id := List.mem_map.mpr ⟨r, hr, rfl⟩
    have h2 : r.id ∈ (order.map Prod.fst).map AppointmentRow.id :=
      ((hperm.map AppointmentRow.id).mem_iff).mpr this
    rw [List.map_map] at h2
    exact h2
  have hmark_final : rows.map (raceMark order win.id (order.map (fun p => p.1.id)))
      = rows.map (cancelLoser order win.id) := by
    apply List.map_congr_left
    intro x hx
    unfold cancelLoser
    by_cases hxw : x.id = win.id
    · rw [raceMark_winner hxw, if_pos hxw]
    · unfold raceMark
      rw [if_pos ⟨hallin x hx, hxw⟩, if_neg hxw]
  refine ⟨?_, ?_, ?_⟩
  · rw [hgo, hmark_final]
  · rw [hgo]
  · rw [hgo, hmark_final]
    obtain ⟨l1, l2, hw, h1, h2⟩ := nodup_mem_sandwich AppointmentRow.id hids hwmem
    have hgwin : cancelLoser order win.id win = win := by
      unfold cancelLoser
      rw [if_pos rfl]
    have hd1 : ∀ x ∈ l1.map (cancelLoser order win.id),
        (fun r : AppointmentRow => r.status == STATUS_ACTIVE) x = false := by
      intro x hx
      obtain ⟨y, hy, hyx⟩ := List.mem_map.mp hx
      rw [← hyx]
      unfold cancelLoser
      rw [if_neg (h1 y hy)]
      rfl
    have hd2 : ∀ x ∈ l2.map (cancelLoser order win.id),
        (fun r : AppointmentRow => r.status == STATUS_ACTIVE) x = false := by
      intro x hx
      obtain ⟨y, hy, hyx⟩ := List.mem_map.mp hx
      rw [← hyx]
      unfold cancelLoser
      rw [if_neg (h2 y hy)]
      rfl
    rw [hw, List.map_append, List.map_cons, hgwin]
    rw [filter_sandwich (fun r : AppointmentRow => r.status == STATUS_ACTIVE)
      (l1.map (cancelLoser order win.id)) (l2.map (cancelLoser order win.id)) win
      (by simp [hactive win hwmem]) hd1 hd2]
    rfl

/-- A C1 race instance: two rows for the 13:00 slot of date 0; row 2 was
created earlier (instant 5 < 10) and wins. -/
def c1RowA : AppointmentRow := mkActiveAppt 1 10 0 780 840 (some 7)

/-- The winning row of the C1 race instance. -/
def c1RowB : AppointmentRow := mkActiveAppt 2 5 0 780 840 (some 8)

/-- The interleaving of the two racers' reconciliations, with their
cancellation instants. -/
def c1Order : List (AppointmentRow × Nat) := [(c1RowA, 100), (c1RowB, 200)]

/-- Witness for C1: on the concrete two-row race, both racers reconcile, the
later-created row 1 ends Cancelled, row 2 survives as the unique Active row,
and only racer 1 reports `slot_taken`. -/
theorem race_convergence_witness :
    (runRace 0 ⟨[], [c1RowA, c1RowB], []⟩ c1Order).1
      = ⟨[], [c1RowA, c1RowB].map (cancelLoser c1Order c1RowB.id), []⟩
    ∧ (runRace 0 ⟨[], [c1RowA, c1RowB], []⟩ c1Order).2
        = c1Order.map (fun p => (p.1.id, decide (p.1.id ≠ c1RowB.id)))
    ∧ (((runRace 0 ⟨[], [c1RowA, c1RowB], []⟩ c1Order).1.appointmentRows.filter
          (fun r => r.status == STATUS_ACTIVE)).map AppointmentRow.id)
        = [c1RowB.id] :=
  race_convergence 0 780 [c1RowA, c1RowB] c1Order [] []
    (by decide) (by decide) (by decide) (by decide) (by decide) (by decide)
    c1RowB (by decide) (by decide)

end Barber
